import Mathlib

/-!
Verification of the nflstats draft-assistant repository against its
natural-language specification.

The Python sources are shallowly embedded: numeric stat values (Python
floats read from CSVs) are modelled as rationals, pandas tables as lists
of (index, row) pairs, Python `dict.get(key, 0)` as an `Option`-valued
lookup with a zero default, and Python exceptions as `Except`.
-/

namespace Spec2Proof

/-! ## get_fantasy_points.py -/

/-- A ruleset: the named bundle of per-event scoring coefficients
(`ruleset` module, referenced by `get_points`). -/
structure Ruleset where
  ppPY : ℚ
  ppPY25 : ℚ
  ppPC : ℚ
  ppINC : ℚ
  ppPTD : ℚ
  ppINT : ℚ
  pp2PC : ℚ
  ppRY : ℚ
  ppRY10 : ℚ
  ppRTD : ℚ
  pp2PR : ℚ
  ppREY : ℚ
  ppREY10 : ℚ
  ppREC : ℚ
  ppRETD : ℚ
  pp2PRE : ℚ
  ppFUML : ℚ
  ppPAT : ℚ
  ppFGM : ℚ
  ppFG0 : ℚ

/-- A row of raw counting stats, keyed by stat name.  `none` models a key
missing from the record (pandas row / dict without that column). -/
def StatRow : Type := String → Option ℚ

/-- Python's `x // 25` on numbers: floor division, embedded on ℚ. -/
def pyFloorDiv (x y : ℚ) : ℚ := (Int.floor (x / y) : ℚ)

/-- `get_points(rs, df)` from get_fantasy_points.py lines 67-95:
`gf = lambda key: df.get(key, 0)` and the weighted sum over the stat keys,
with `//` floor division for the per-25 / per-10 yardage bonuses. -/
def get_points (rs : Ruleset) (df : StatRow) : ℚ :=
  let gf : String → ℚ := fun key => (df key).getD 0
  rs.ppPY * gf "pass_yds"
  + rs.ppPY25 * pyFloorDiv (gf "pass_yds") 25
  + rs.ppPC * gf "pass_cmp"
  + rs.ppINC * (gf "pass_att" - gf "pass_cmp")
  + rs.ppPTD * gf "pass_td"
  + rs.ppINT * gf "pass_int"
  + rs.pp2PC * gf "pass_twoptm"
  + rs.ppRY * gf "rush_yds"
  + rs.ppRY10 * pyFloorDiv (gf "rush_yds") 10
  + rs.ppRTD * gf "rush_td"
  + rs.pp2PR * gf "rush_twoptm"
  + rs.ppREY * gf "rec_yds"
  + rs.ppREY10 * pyFloorDiv (gf "rec_yds") 10
  + rs.ppREC * gf "rec"
  + rs.ppRETD * gf "rec_td"
  + rs.pp2PRE * gf "rec_twoptm"
  + rs.ppFUML * gf "fumbles_lost"
  + rs.ppPAT * gf "xpm"
  + rs.ppFGM * (gf "fga" - gf "fgm")
  + rs.ppFG0 * gf "fgm"

/-- The spec's §4.2 formula for `computeFantasyPoints`, written from the
spec's words: weighted sum with `floor(x/25)` and `floor(x/10)` bonus
terms, any missing stat key defaulting to zero.  Used as the refinement
counterpart of `get_points`. -/
def computeFantasyPoints (rs : Ruleset) (stat : StatRow) : ℚ :=
  let v : String → ℚ := fun key => (stat key).getD 0
  rs.ppPY * v "pass_yds" + rs.ppPY25 * (Int.floor (v "pass_yds" / 25) : ℚ)
  + rs.ppPC * v "pass_cmp" + rs.ppINC * (v "pass_att" - v "pass_cmp")
  + rs.ppPTD * v "pass_td" + rs.ppINT * v "pass_int" + rs.pp2PC * v "pass_twoptm"
  + rs.ppRY * v "rush_yds" + rs.ppRY10 * (Int.floor (v "rush_yds" / 10) : ℚ)
  + rs.ppRTD * v "rush_td" + rs.pp2PR * v "rush_twoptm"
  + rs.ppREY * v "rec_yds" + rs.ppREY10 * (Int.floor (v "rec_yds" / 10) : ℚ)
  + rs.ppREC * v "rec" + rs.ppRETD * v "rec_td" + rs.pp2PRE * v "rec_twoptm"
  + rs.ppFUML * v "fumbles_lost" + rs.ppPAT * v "xpm"
  + rs.ppFGM * (v "fga" - v "fgm") + rs.ppFG0 * v "fgm"

/-- The record with every stat present and zero. -/
def zeroStatRow : StatRow := fun _ => some 0

/-- The record with every stat key missing. -/
def emptyStatRow : StatRow := fun _ => none

/-- C1: `get_points` computes exactly the §4.2 weighted sum with floor
division on the bonus terms; a record whose keys are all missing scores
the same as the all-zero record, and the all-zero record scores 0 under
every ruleset. -/
theorem c1_get_points_is_spec_formula :
    ∀ (rs : Ruleset) (df : StatRow),
      get_points rs df = computeFantasyPoints rs df
      ∧ get_points rs emptyStatRow = 0
      ∧ get_points rs zeroStatRow = 0 := by
  intro rs df
  refine ⟨rfl, ?_, ?_⟩ <;>
    simp [get_points, emptyStatRow, zeroStatRow, pyFloorDiv, Option.getD]

/-! ## draft_app.py: simplify_name (lines 292-296)

Python strings are modelled as `List Char`.  `str.strip()` is modelled
over the ASCII whitespace characters, `str.lower()` over ASCII letters
(player names in this repository are ASCII). -/

/-- The apostrophe character (ASCII 39). -/
def aposChar : Char := Char.ofNat 39

/-- The tab character (ASCII 9). -/
def tabChar : Char := Char.ofNat 9

/-- Python `str.strip()` whitespace (ASCII): space, tab, LF, VT, FF, CR. -/
def pyIsSpace (c : Char) : Bool :=
  c.toNat = 32 || c.toNat = 9 || c.toNat = 10 || c.toNat = 11
    || c.toNat = 12 || c.toNat = 13

/-- Python `str.strip()`: drop leading and trailing whitespace. -/
def pyStrip (s : List Char) : List Char :=
  ((s.dropWhile pyIsSpace).reverse.dropWhile pyIsSpace).reverse

/-- Python `str.lower()` on one ASCII character. -/
def pyLowerChar (c : Char) : Char :=
  if 65 ≤ c.toNat ∧ c.toNat ≤ 90 then Char.ofNat (c.toNat + 32) else c

/-- `.replace(' ', underscore)` on one character. -/
def spaceToUnderscore (c : Char) : Char := if c = ' ' then '_' else c

/-- `simplify_name(name)` from draft_app.py lines 292-296:
`name.strip().lower().replace(space, underscore)` then removal of
apostrophes and periods. -/
def simplify_name (s : List Char) : List Char :=
  ((((pyStrip s).map pyLowerChar).map spaceToUnderscore).filter
    (fun c => c ≠ aposChar)).filter (fun c => c ≠ '.')

/-- A counterexample input for C10: the string `"." ++ tab ++ "a."`. -/
def c10Input : List Char := ['.', tabChar, 'a', '.']

/-- C10 counterexample: `simplify_name` is not idempotent.  On the input
`"." ++ tab ++ "a."` the first application yields `tab ++ "a"` (the
period removal exposes an interior tab at the front), and the second
application strips that tab, yielding `"a"`. -/
theorem c10_counterexample :
    simplify_name c10Input = [tabChar, 'a']
    ∧ simplify_name (simplify_name c10Input) = ['a']
    ∧ simplify_name (simplify_name c10Input) ≠ simplify_name c10Input := by
  refine ⟨?_, ?_, ?_⟩ <;> decide

/-- Helper: dropping while a predicate holds is the identity when no
element satisfies it. -/
theorem dropWhile_eq_self_of_none {p : Char → Bool} :
    ∀ {l : List Char}, (∀ c ∈ l, p c = false) → l.dropWhile p = l := by
  intro l h
  cases l with
  | nil => rfl
  | cons a l =>
      simp only [List.dropWhile]
      rw [h a (by simp)]

/-- Helper: mapping a function that fixes every element is the identity. -/
theorem map_eq_self_of_fixed {f : Char → Char} :
    ∀ {l : List Char}, (∀ c ∈ l, f c = c) → l.map f = l := by
  intro l h
  induction l with
  | nil => rfl
  | cons a l ih =>
      simp only [List.map_cons, List.cons.injEq]
      exact ⟨h a (by simp), ih fun c hc => h c (by simp [hc])⟩

/-- `Char.ofNat` round-trips through `toNat` on the basic plane. -/
theorem char_toNat_ofNat (n : ℕ) (h : n < 55296) : (Char.ofNat n).toNat = n := by
  unfold Char.ofNat
  rw [dif_pos (Or.inl h)]
  simp only [Char.ofNatAux, Char.toNat, UInt32.toNat, UInt32.ofNatCore,
    BitVec.toNat, Nat.toUInt32, UInt32.ofNat]
  simp [BitVec.ofNatLt]

/-- Every character of `simplify_name s` arises as
`spaceToUnderscore (pyLowerChar c₀)` for some character `c₀` of `s`,
and is neither an apostrophe nor a period. -/
theorem mem_simplify_name {c : Char} {s : List Char}
    (h : c ∈ simplify_name s) :
    (∃ c₀ ∈ s, c = spaceToUnderscore (pyLowerChar c₀))
      ∧ c ≠ aposChar ∧ c ≠ '.' := by
  unfold simplify_name at h
  have h1 := List.mem_filter.mp h
  have h2 := List.mem_filter.mp h1.1
  have h3 := List.mem_map.mp h2.1
  obtain ⟨b, hb, hbc⟩ := h3
  have h4 := List.mem_map.mp hb
  obtain ⟨a, ha, hac⟩ := h4
  have hmem : a ∈ s := by
    have h5 : a ∈ (s.dropWhile pyIsSpace).reverse.dropWhile pyIsSpace := by
      unfold pyStrip at ha
      simpa using ha
    have h6 := (List.dropWhile_sublist (l := (s.dropWhile pyIsSpace).reverse)
      (p := pyIsSpace)).mem h5
    have h7 : a ∈ s.dropWhile pyIsSpace := by simpa using h6
    exact (List.dropWhile_sublist (l := s) (p := pyIsSpace)).mem h7
  refine ⟨⟨a, hmem, by rw [← hbc, ← hac]⟩, ?_, ?_⟩
  · simpa using h2.2
  · simpa using h1.2

/-- `spaceToUnderscore (pyLowerChar c)` is never a space and never an
uppercase ASCII letter. -/
theorem spu_pyLowerChar_not_special (c : Char) :
    spaceToUnderscore (pyLowerChar c) ≠ ' '
    ∧ ¬(65 ≤ (spaceToUnderscore (pyLowerChar c)).toNat
        ∧ (spaceToUnderscore (pyLowerChar c)).toNat ≤ 90) := by
  unfold pyLowerChar
  by_cases hup : 65 ≤ c.toNat ∧ c.toNat ≤ 90
  · rw [if_pos hup]
    have h32 : (Char.ofNat (c.toNat + 32)).toNat = c.toNat + 32 :=
      char_toNat_ofNat _ (by omega)
    have hne : Char.ofNat (c.toNat + 32) ≠ ' ' := by
      intro he
      rw [he] at h32
      have : (' ').toNat = 32 := by decide
      omega
    unfold spaceToUnderscore
    rw [if_neg hne]
    exact ⟨hne, by omega⟩
  · rw [if_neg hup]
    unfold spaceToUnderscore
    by_cases hsp : c = ' '
    · rw [if_pos hsp]
      exact ⟨by decide, by decide⟩
    · rw [if_neg hsp]
      exact ⟨hsp, hup⟩

/-- `pyIsSpace` is false for any character with code point above 32. -/
theorem pyIsSpace_false_of_large {d : Char} (h : 33 ≤ d.toNat) :
    pyIsSpace d = false := by
  simp only [pyIsSpace, Bool.or_eq_false_iff, decide_eq_false_iff_not]
  omega

/-- If the source character is whitespace only when it is a plain space,
the corresponding output character of `simplify_name` is not whitespace. -/
theorem spu_pyLowerChar_not_space {c : Char}
    (h : pyIsSpace c = true → c = ' ') :
    pyIsSpace (spaceToUnderscore (pyLowerChar c)) = false := by
  by_cases hsp : c = ' '
  · subst hsp
    decide
  · have hcs : pyIsSpace c = false := by
      cases hh : pyIsSpace c with
      | false => rfl
      | true => exact absurd (h hh) hsp
    unfold pyLowerChar
    by_cases hup : 65 ≤ c.toNat ∧ c.toNat ≤ 90
    · rw [if_pos hup]
      have h32 : (Char.ofNat (c.toNat + 32)).toNat = c.toNat + 32 :=
        char_toNat_ofNat _ (by omega)
      have hne : Char.ofNat (c.toNat + 32) ≠ ' ' := by
        intro he
        rw [he] at h32
        have : (' ').toNat = 32 := by decide
        omega
      unfold spaceToUnderscore
      rw [if_neg hne]
      exact pyIsSpace_false_of_large (by omega)
    · rw [if_neg hup]
      unfold spaceToUnderscore
      rw [if_neg hsp]
      exact hcs

/-- C10 (amended): `simplify_name`'s output never contains a space, a
period, an apostrophe, or an uppercase ASCII letter; and on strings whose
only whitespace characters are plain spaces, `simplify_name` is
idempotent (full idempotence fails, see the counterexample). -/
theorem c10_simplify_name_amended (s : List Char) :
    (∀ c ∈ simplify_name s,
        c ≠ ' ' ∧ c ≠ '.' ∧ c ≠ aposChar
          ∧ ¬(65 ≤ c.toNat ∧ c.toNat ≤ 90))
    ∧ ((∀ c ∈ s, pyIsSpace c = true → c = ' ') →
        simplify_name (simplify_name s) = simplify_name s) := by
  have hchar : ∀ c ∈ simplify_name s,
      c ≠ ' ' ∧ c ≠ '.' ∧ c ≠ aposChar ∧ ¬(65 ≤ c.toNat ∧ c.toNat ≤ 90) := by
    intro c hc
    obtain ⟨⟨c₀, _, hc₀⟩, hap, hdot⟩ := mem_simplify_name hc
    have := spu_pyLowerChar_not_special c₀
    exact ⟨hc₀ ▸ this.1, hdot, hap, hc₀ ▸ this.2⟩
  refine ⟨hchar, ?_⟩
  intro hws
  have hnospace : ∀ c ∈ simplify_name s, pyIsSpace c = false := by
    intro c hc
    obtain ⟨⟨c₀, hc₀s, hc₀⟩, _, _⟩ := mem_simplify_name hc
    exact hc₀ ▸ spu_pyLowerChar_not_space (hws c₀ hc₀s)
  have hstrip : pyStrip (simplify_name s) = simplify_name s := by
    unfold pyStrip
    rw [dropWhile_eq_self_of_none hnospace]
    rw [dropWhile_eq_self_of_none (fun c hc => hnospace c (by simpa using hc))]
    exact List.reverse_reverse _
  have hlower : (simplify_name s).map pyLowerChar = simplify_name s := by
    apply map_eq_self_of_fixed
    intro c hc
    unfold pyLowerChar
    exact if_neg (hchar c hc).2.2.2
  have hspace : (simplify_name s).map spaceToUnderscore = simplify_name s := by
    apply map_eq_self_of_fixed
    intro c hc
    unfold spaceToUnderscore
    exact if_neg (hchar c hc).1
  have hfilter1 : (simplify_name s).filter (fun c => c ≠ aposChar)
      = simplify_name s := by
    rw [List.filter_eq_self]
    intro c hc
    simpa using (hchar c hc).2.2.1
  have hfilter2 : (simplify_name s).filter (fun c => c ≠ '.')
      = simplify_name s := by
    rw [List.filter_eq_self]
    intro c hc
    simpa using (hchar c hc).2.1
  show ((((pyStrip (simplify_name s)).map pyLowerChar).map
      spaceToUnderscore).filter (fun c => c ≠ aposChar)).filter
      (fun c => c ≠ '.') = simplify_name s
  rw [hstrip, hlower, hspace, hfilter1, hfilter2]

/-- C10 amended-theorem witness: `simplify_name` applied to
`"A.J. Smith Jr."` is well behaved at a concrete input. -/
theorem c10_simplify_name_amended_witness :
    (∀ c ∈ simplify_name
        ['A', '.', 'J', '.', ' ', 'S', 'm', 'i', 't', 'h', ' ', 'J', 'r', '.'],
        c ≠ ' ' ∧ c ≠ '.' ∧ c ≠ aposChar ∧ ¬(65 ≤ c.toNat ∧ c.toNat ≤ 90))
    ∧ simplify_name (simplify_name
        ['A', '.', 'J', '.', ' ', 'S', 'm', 'i', 't', 'h', ' ', 'J', 'r', '.'])
      = simplify_name
        ['A', '.', 'J', '.', ' ', 'S', 'm', 'i', 't', 'h', ' ', 'J', 'r', '.'] :=
  ⟨(c10_simplify_name_amended _).1,
    (c10_simplify_name_amended
      ['A', '.', 'J', '.', ' ', 'S', 'm', 'i', 't', 'h', ' ', 'J', 'r', '.']).2
      (by decide)⟩

/-! ## bayes_models.py: Beta-Binomial model (lines 79-120)

The per-observation loops of `_mse` / `_mae` / `_kld` are embedded with
the transcendental scoring kernels (`dist_fit.beta_binomial`,
`dist_fit.log_beta_binomial`, Γ/Beta-function based) left as parameters:
the claims under verification concern the update ordering and the
hyperparameter state, not the numerical value of the pmf.  The `assert`
guarding the data range is modelled by an `Option` result. -/

/-- The sum `sum(probs*(support-d)**2)` of `_mse` (lines 91-92), with the
pmf kernel abstract; `support = np.arange(0, n+1)`. -/
def bbExpectedSq (pmf : ℚ → ℚ → ℚ → ℚ → ℚ) (n : ℕ) (alpha beta d : ℚ) : ℚ :=
  ((List.range (n + 1)).map
    (fun k => pmf (k : ℚ) (n : ℚ) alpha beta * ((k : ℚ) - d) ^ 2)).sum

/-- The sum `sum(probs*np.abs(support-d))` of `_mae` (lines 105-106). -/
def bbExpectedAbs (pmf : ℚ → ℚ → ℚ → ℚ → ℚ) (n : ℕ) (alpha beta d : ℚ) : ℚ :=
  ((List.range (n + 1)).map
    (fun k => pmf (k : ℚ) (n : ℚ) alpha beta * |(k : ℚ) - d|)).sum

/-- The shared loop of the Beta-Binomial evaluators: score the current
observation with the current `(alpha, beta)`, then update
`alpha += lr*d`, `beta += lr*(n-d)`. -/
def bbLoop (score : ℚ → ℚ → ℚ → ℚ) (n lr : ℚ) :
    ℚ → ℚ → List ℚ → List ℚ
  | _, _, [] => []
  | alpha, beta, d :: ds =>
      score alpha beta d :: bbLoop score n lr (alpha + lr * d) (beta + lr * (n - d)) ds

/-- `beta_binomial_model_gen._kld` (lines 112-120): `none` models the
failed `assert` on out-of-range data. -/
def bb_kld (logBB : ℚ → ℚ → ℚ → ℚ → ℚ) (data : List ℚ)
    (n : ℕ) (alpha0 beta0 : ℚ) (lr : ℚ := 1) : Option (List ℚ) :=
  if data.all (fun d => 0 ≤ d && d ≤ (n : ℚ)) then
    some (bbLoop (fun alpha beta d => -(logBB d (n : ℚ) alpha beta))
      (n : ℚ) lr alpha0 beta0 data)
  else none

/-- `beta_binomial_model_gen._mse` (lines 80-96). -/
def bb_mse (pmf : ℚ → ℚ → ℚ → ℚ → ℚ) (data : List ℚ)
    (n : ℕ) (alpha0 beta0 : ℚ) (lr : ℚ := 1) : Option (List ℚ) :=
  if data.all (fun d => 0 ≤ d && d ≤ (n : ℚ)) then
    some (bbLoop (fun alpha beta d => bbExpectedSq pmf n alpha beta d)
      (n : ℚ) lr alpha0 beta0 data)
  else none

/-- `beta_binomial_model_gen._mae` (lines 99-109). -/
def bb_mae (pmf : ℚ → ℚ → ℚ → ℚ → ℚ) (data : List ℚ)
    (n : ℕ) (alpha0 beta0 : ℚ) (lr : ℚ := 1) : Option (List ℚ) :=
  if data.all (fun d => 0 ≤ d && d ≤ (n : ℚ)) then
    some (bbLoop (fun alpha beta d => bbExpectedAbs pmf n alpha beta d)
      (n : ℚ) lr alpha0 beta0 data)
  else none

/-- The `(alpha, beta)` hyperparameter state accumulated from the strictly
earlier observations: entry `i` is the pair obtained from `(alpha0, beta0)`
by applying the update rule to observations `0, …, i-1` only. -/
def bbStates (n lr : ℚ) : ℚ → ℚ → List ℚ → List (ℚ × ℚ)
  | _, _, [] => []
  | alpha, beta, d :: ds =>
      (alpha, beta) :: bbStates n lr (alpha + lr * d) (beta + lr * (n - d)) ds

/-- The generic loop scores observation `i` exactly at the state built
from the strictly earlier observations. -/
theorem bbLoop_eq_zip_states (score : ℚ → ℚ → ℚ → ℚ) (n lr : ℚ) :
    ∀ (data : List ℚ) (alpha beta : ℚ),
      bbLoop score n lr alpha beta data
        = (data.zip (bbStates n lr alpha beta data)).map
            (fun p => score p.2.1 p.2.2 p.1) := by
  intro data
  induction data with
  | nil => intro alpha beta; rfl
  | cons d ds ih =>
      intro alpha beta
      simp only [bbLoop, bbStates, List.zip_cons_cons, List.map_cons]
      rw [ih]

/-- C5: each per-step score of the Beta-Binomial `kld`/`mse`/`mae` is
computed from the `(alpha, beta)` accumulated from strictly earlier
observations only (update applied after scoring); in particular, with
`n=10, alpha0=beta0=1, lr=1`, the second step scores with
`alpha = 1+d1`, `beta = 1+(10-d1)`. -/
theorem c5_beta_binomial_pre_update
    (logBB pmf : ℚ → ℚ → ℚ → ℚ → ℚ) (d1 d2 : ℚ)
    (h1 : 0 ≤ d1 ∧ d1 ≤ 10) (h2 : 0 ≤ d2 ∧ d2 ≤ 10) :
    (∀ (data : List ℚ) (n : ℕ) (alpha0 beta0 lr : ℚ),
      (∀ d ∈ data, 0 ≤ d ∧ d ≤ (n : ℚ)) →
      bb_kld logBB data n alpha0 beta0 lr
        = some ((data.zip (bbStates (n : ℚ) lr alpha0 beta0 data)).map
            (fun p => -(logBB p.1 (n : ℚ) p.2.1 p.2.2))))
    ∧ bb_kld logBB [d1, d2] 10 1 1 1
        = some [-(logBB d1 10 1 1), -(logBB d2 10 (1 + d1) (1 + (10 - d1)))]
    ∧ bb_mse pmf [d1, d2] 10 1 1 1
        = some [bbExpectedSq pmf 10 1 1 d1,
                bbExpectedSq pmf 10 (1 + d1) (1 + (10 - d1)) d2]
    ∧ bb_mae pmf [d1, d2] 10 1 1 1
        = some [bbExpectedAbs pmf 10 1 1 d1,
                bbExpectedAbs pmf 10 (1 + d1) (1 + (10 - d1)) d2] := by
  have hall : ([d1, d2].all (fun d => 0 ≤ d && d ≤ ((10 : ℕ) : ℚ))) = true := by
    simp only [List.all_cons, List.all_nil, Bool.and_eq_true, decide_eq_true_eq]
    push_cast
    exact ⟨⟨h1.1, h1.2⟩, ⟨h2.1, h2.2⟩, trivial⟩
  refine ⟨?_, ?_, ?_, ?_⟩
  · intro data n alpha0 beta0 lr hd
    have hcond : (data.all (fun d => 0 ≤ d && d ≤ (n : ℚ))) = true := by
      rw [List.all_eq_true]
      intro d hdm
      simp only [Bool.and_eq_true, decide_eq_true_eq]
      exact (hd d hdm)
    unfold bb_kld
    rw [if_pos hcond, bbLoop_eq_zip_states]
  · unfold bb_kld
    rw [if_pos hall]
    simp only [bbLoop]
    norm_num
  · unfold bb_mse
    rw [if_pos hall]
    simp only [bbLoop]
    norm_num
  · unfold bb_mae
    rw [if_pos hall]
    simp only [bbLoop]
    norm_num

/-- C5 witness: the theorem instantiated at `d1 = 3`, `d2 = 7` with a
trivial kernel, exhibiting the state `(alpha, beta) = (4, 8)` used at the
second step. -/
theorem c5_beta_binomial_pre_update_witness :
    bb_kld (fun d _ alpha beta => d + alpha + beta) [3, 7] 10 1 1 1
      = some [-(3 + 1 + 1), -(7 + (1 + 3) + (1 + (10 - 3)))] :=
  (c5_beta_binomial_pre_update (fun d _ alpha beta => d + alpha + beta)
    (fun _ _ _ _ => 0) 3 7 (by norm_num) (by norm_num)).2.1

/-! ## bayes_models.py: Negative-Binomial model `_get_rps` (lines 152-167) -/

/-- Input shapes accepted by the negative-binomial model: a flat 1-d
sequence of counts, or a 2-row array of (numerator, denominator) columns
(iterated as pairs by `data.T`). -/
inductive NBData where
  | flat (ds : List ℚ)
  | paired (ds : List (ℚ × ℚ))

/-- `neg_binomial_model_gen._get_rps` (lines 152-167): starting from
`r = r0`, `b = (1-p0)/p0`, append one updated `(r, b)` per observation,
then return `rs` and `ps = 1/(1+b)` element-wise.  Note the flat branch
appends `bs[-1] + lr*d` (the observation-scaled increment). -/
def get_rps (data : NBData) (r0 p0 : ℚ) (lr : ℚ := 1) : List ℚ × List ℚ :=
  let b0 : ℚ := (1 - p0) / p0
  let rbs : List ℚ × List ℚ :=
    match data with
    | .paired ds => ds.foldl
        (fun acc d =>
          (acc.1 ++ [acc.1.getLast! + lr * d.1],
           acc.2 ++ [acc.2.getLast! + lr * d.2]))
        ([r0], [b0])
    | .flat ds => ds.foldl
        (fun acc d =>
          (acc.1 ++ [acc.1.getLast! + lr * d],
           acc.2 ++ [acc.2.getLast! + lr * d]))
        ([r0], [b0])
  (rbs.1, rbs.2.map (fun b => 1 / (1 + b)))

/-- Modelled from the spec: the update rule stated in §4.4 item 4 (and in
the code's own comment block above the class): for a flat sequence,
`r ← r + lr·d` and `β ← β + lr` — β increases by the constant learning
rate at every step. -/
def get_rps_spec (ds : List ℚ) (r0 p0 : ℚ) (lr : ℚ := 1) : List ℚ × List ℚ :=
  let b0 : ℚ := (1 - p0) / p0
  let rbs : List ℚ × List ℚ := ds.foldl
    (fun acc d =>
      (acc.1 ++ [acc.1.getLast! + lr * d],
       acc.2 ++ [acc.2.getLast! + lr]))
    ([r0], [b0])
  (rbs.1, rbs.2.map (fun b => 1 / (1 + b)))

/-- C4 evaluation at the failing input: for the flat sequence `[3]` with
`r0 = 1`, `p0 = 1/2`, `lr = 1`, the code's β-state goes `1 → 4`
(increment `lr·d = 3`, giving `p = 1/5`), while the documented rule
`β ← β + lr` gives `1 → 2` (`p = 1/3`).  The flat branch of `_get_rps`
contradicts the class's own comment `beta -> beta + lr`. -/
theorem c4_neg_binomial_beta_update_bug :
    get_rps (NBData.flat [3]) 1 (1/2) 1 = ([1, 4], [1/2, 1/5])
    ∧ get_rps_spec [3] 1 (1/2) 1 = ([1, 4], [1/2, 1/3])
    ∧ (get_rps (NBData.flat [3]) 1 (1/2) 1).2
        ≠ (get_rps_spec [3] 1 (1/2) 1).2 := by
  refine ⟨?_, ?_, ?_⟩ <;>
    · simp only [get_rps, get_rps_spec, List.foldl, List.getLast!,
        List.getLast?, List.map]
      norm_num

/-! ## dist_fit.py: to_poisson (lines 132-141)

`to_poisson` computes the ML estimate `mu` and its error, then evaluates
`log_L_per_ndf` — whose second term is written
`sum( gammaln( np.array(x)+1 ) ) / (n-1)` with the bare name `x`, which
is bound nowhere at module scope of dist_fit.py (every other `x` in the
file is local to a different function).  Python therefore raises a
`NameError` on that line for every non-empty input, so the function never
returns.  The transcendental kernels (`gammaln`, `log`) are abstract
parameters, and the name lookup of `x` is modelled explicitly. -/

/-- The module-global binding that would resolve the bare name `x` in
`to_poisson`: dist_fit.py has none. -/
def distFitGlobalX : Option ℚ := none

/-- The ML estimate of lines 136-137: `mu = float(sum(data))/n`. -/
def to_poisson_mu (data : List ℕ) : ℚ :=
  ((data.sum : ℚ)) / (data.length : ℚ)

/-- `to_poisson(data)` (lines 132-141).  Empty data prints an error and
exits (first `error`); otherwise `mu` and `err_mu` are computed
(`err_mu = sqrt(mu/n)`, tracked by its square to stay in ℚ), and the
`log_L_per_ndf` line dereferences the unbound name `x` (second `error`).
The `some` branch (unreachable, since `distFitGlobalX = none`) carries
the rest of line 139-140 with `gammalnQ`/`logQ` as kernels. -/
def to_poisson (gammalnQ logQ : ℚ → ℚ) (data : List ℕ) :
    Except String ((ℚ × ℚ) × ℚ) :=
  if data.isEmpty then .error "error: empty data set"
  else
    let n : ℚ := (data.length : ℚ)
    let mu : ℚ := (data.sum : ℚ) / n
    let errMuSq : ℚ := mu / n
    match distFitGlobalX with
    | none => .error "NameError: name x is not defined"
    | some x =>
        let logL : ℚ := mu * (logQ mu - 1) * n / (n - 1)
          - gammalnQ (x + 1) / (n - 1)
        .ok ((mu, errMuSq), logL)

/-- C9 evaluation at the failing input: for the data `[1, 2, 3]` the code
raises `NameError` (undefined name `x` in the `log_L_per_ndf`
expression) instead of returning; the ML-estimate part it computes before
failing is the sample mean, here `2`. -/
theorem c9_to_poisson_name_error :
    ∀ (gammalnQ logQ : ℚ → ℚ),
      to_poisson gammalnQ logQ [1, 2, 3]
        = .error "NameError: name x is not defined"
      ∧ to_poisson gammalnQ logQ [] = .error "error: empty data set"
      ∧ to_poisson_mu [1, 2, 3] = 2 := by
  intro gammalnQ logQ
  refine ⟨rfl, rfl, ?_⟩
  norm_num [to_poisson_mu]

/-! ## playermodels/rushing.py: position-default hyperparameters

Each `_default_hyperpars` classmethod upper-cases the position code,
returns a literal vector for RB/QB/WR, and otherwise calls
`logging.error` (twice for TE) and falls off the end of the function —
i.e. it returns Python's `None`, modelled as `none`.  No exception is
raised, so the embedding is total. -/

/-- Python `str.upper()` on one ASCII character. -/
def pyUpperChar (c : Char) : Char :=
  if 97 ≤ c.toNat ∧ c.toNat ≤ 122 then Char.ofNat (c.toNat - 32) else c

/-- Python `str.upper()` on an ASCII string. -/
def pyUpperStr (s : String) : String := ⟨s.data.map pyUpperChar⟩

/-- `RushAttModel._default_hyperpars` (rushing.py lines 17-38). -/
def RushAttModel_default_hyperpars (pos : String) : Option (List ℚ) :=
  let pos := pyUpperStr pos
  if pos = "RB" then some [0.756, 0.0756, 0.133, 0.503, 0.752]
  else if pos = "QB" then some [1.76, 0.58, 0.238, 0.494, 0.963]
  else if pos = "WR" then some [1.17, 7.03, 1.0, 0.545, 0.982]
  else none

/-- `RushYdsModel._default_hyperpars` (rushing.py lines 52-90). -/
def RushYdsModel_default_hyperpars (pos : String) : Option (List ℚ) :=
  let pos := pyUpperStr pos
  if pos = "RB" then
    some [0.657, 0.2, 1.68, 10.88, 1.988, 0.381, 0.00154, 1.0, 1.0, 1.0, 1.0]
  else if pos = "QB" then
    some [111.59, 42.13, 2.82, 50.32, 0.0472, 0.940, 0.000042, 0.805, 0.985,
      0.972, 0.942]
  else if pos = "WR" then
    some [116.2, 41.84, 2.45, 46.42, 0.348, 0.332, 0.00092, 1.0, 1.0, 1.0, 1.0]
  else none

/-- `RushTdModel._default_hyperpars` (rushing.py lines 104-127). -/
def RushTdModel_default_hyperpars (pos : String) : Option (List ℚ) :=
  let pos := pyUpperStr pos
  if pos = "RB" then some [20.90, 684.65, 1.0, 0.569, 1.0]
  else if pos = "QB" then some [12.95, 330.25, 1.0, 1.0, 0.991]
  else if pos = "WR" then some [1.14, 60.63, 0.413, 0.997, 0.989]
  else none

/-- C8 counterexample: at the unsupported position `TE` all three rushing
models' `_default_hyperpars` return normally with the value `None` —
they log an error but raise no exception, contradicting the claim that
an unsupported-position error is raised rather than a value returned. -/
theorem c8_counterexample :
    RushAttModel_default_hyperpars "TE" = none
    ∧ RushYdsModel_default_hyperpars "TE" = none
    ∧ RushTdModel_default_hyperpars "TE" = none := by
  refine ⟨?_, ?_, ?_⟩ <;> rfl

/-- C8 (amended): for every position code outside RB/QB/WR
(case-insensitively) the three rushing models' `_default_hyperpars` log
an unsupported-position error and return `None` (no exception); for the
supported codes they return exactly the documented literal vectors. -/
theorem c8_default_hyperpars_amended :
    (∀ pos : String, pyUpperStr pos ≠ "RB" → pyUpperStr pos ≠ "QB" →
      pyUpperStr pos ≠ "WR" →
        RushAttModel_default_hyperpars pos = none
        ∧ RushYdsModel_default_hyperpars pos = none
        ∧ RushTdModel_default_hyperpars pos = none)
    ∧ RushAttModel_default_hyperpars "RB"
        = some [0.756, 0.0756, 0.133, 0.503, 0.752]
    ∧ RushAttModel_default_hyperpars "QB"
        = some [1.76, 0.58, 0.238, 0.494, 0.963]
    ∧ RushAttModel_default_hyperpars "WR"
        = some [1.17, 7.03, 1.0, 0.545, 0.982]
    ∧ RushTdModel_default_hyperpars "RB" = some [20.90, 684.65, 1.0, 0.569, 1.0]
    ∧ RushTdModel_default_hyperpars "QB" = some [12.95, 330.25, 1.0, 1.0, 0.991]
    ∧ RushTdModel_default_hyperpars "WR"
        = some [1.14, 60.63, 0.413, 0.997, 0.989] := by
  constructor
  · intro pos h1 h2 h3
    refine ⟨?_, ?_, ?_⟩
    · show (let p := pyUpperStr pos; if p = "RB" then _ else
        if p = "QB" then _ else if p = "WR" then _ else none) = none
      simp only []
      rw [if_neg h1, if_neg h2, if_neg h3]
    · show (let p := pyUpperStr pos; if p = "RB" then _ else
        if p = "QB" then _ else if p = "WR" then _ else none) = none
      simp only []
      rw [if_neg h1, if_neg h2, if_neg h3]
    · show (let p := pyUpperStr pos; if p = "RB" then _ else
        if p = "QB" then _ else if p = "WR" then _ else none) = none
      simp only []
      rw [if_neg h1, if_neg h2, if_neg h3]
  · refine ⟨rfl, rfl, rfl, rfl, rfl, rfl⟩

/-- C8 amended-theorem witness: the unsupported branch applied at the
concrete position `K`. -/
theorem c8_default_hyperpars_amended_witness :
    RushAttModel_default_hyperpars "K" = none
    ∧ RushYdsModel_default_hyperpars "K" = none
    ∧ RushTdModel_default_hyperpars "K" = none :=
  c8_default_hyperpars_amended.1 "K" (by decide) (by decide) (by decide)

/-! ## draft_app.py: auction rescaling (main, lines 1645-1657)

Only the columns the step reads and writes are modelled: the tier label
(`none` = still-null, i.e. what later becomes `FA`) and the auction
value. -/

/-- A row of the available-player table as seen by the auction-rescale
step. -/
structure PlayerA where
  tier : Option String
  auction : ℚ
  deriving DecidableEq, Repr

/-- Lines 1645-1654 of draft_app.py: with `cap = 200` and `minbid = 1`
inlined, `avail_cap = n_teams*cap - minbid*slots` (`slots` is
`sum(n_roster_per_league.values())`), multiply the whole auction column
by `avail_cap / total_auction_pts`, then add `minbid` to every row whose
tier is non-null. -/
def rescaleAuction (nTeams slots : ℕ) (df : List PlayerA) : List PlayerA :=
  let availCap : ℚ := (nTeams : ℚ) * 200 - 1 * (slots : ℚ)
  let totalPts : ℚ := (df.map PlayerA.auction).sum
  let scaled := df.map
    (fun r => { r with auction := r.auction * (availCap / totalPts) })
  scaled.map
    (fun r => if r.tier.isSome then { r with auction := r.auction + 1 }
      else r)

/-- Sum of the `auction` column over the tiered (non-null-tier) rows. -/
def tieredAuctionSum (df : List PlayerA) : ℚ :=
  ((df.filter (fun r => r.tier.isSome)).map PlayerA.auction).sum

/-- Sum of the `auction` column over the untiered rows. -/
def untieredAuctionSum (df : List PlayerA) : ℚ :=
  ((df.filter (fun r => !r.tier.isSome)).map PlayerA.auction).sum

/-- The auction column total splits into the tiered and untiered parts. -/
theorem auctionSum_split (df : List PlayerA) :
    (df.map PlayerA.auction).sum
      = tieredAuctionSum df + untieredAuctionSum df := by
  unfold tieredAuctionSum untieredAuctionSum
  induction df with
  | nil => simp
  | cons r rest ih =>
      cases h : r.tier with
      | none =>
          simp [List.filter_cons, h, ih]
          ring
      | some t =>
          simp [List.filter_cons, h, ih]
          ring

/-- Scaling the whole column scales the tiered part. -/
theorem tieredAuctionSum_scale (df : List PlayerA) (c : ℚ) :
    tieredAuctionSum
        (df.map (fun r => { r with auction := r.auction * c }))
      = tieredAuctionSum df * c := by
  unfold tieredAuctionSum
  induction df with
  | nil => simp
  | cons r rest ih =>
      by_cases h : r.tier.isSome = true <;>
        · simp [List.filter_cons, h, ih]
          try ring

/-- Scaling the whole column preserves the tiered row count. -/
theorem tieredCount_scale (df : List PlayerA) (c : ℚ) :
    ((df.map (fun r => { r with auction := r.auction * c })).filter
        (fun r => r.tier.isSome)).length
      = (df.filter (fun r => r.tier.isSome)).length := by
  induction df with
  | nil => simp
  | cons r rest ih =>
      by_cases h : r.tier.isSome = true <;>
        simp [List.filter_cons, h, ih]

/-- Adding the min bid to every tiered row adds the tiered row count to
the tiered sum. -/
theorem tieredAuctionSum_addbid (df : List PlayerA) :
    tieredAuctionSum
        (df.map (fun r => if r.tier.isSome
          then { r with auction := r.auction + 1 } else r))
      = tieredAuctionSum df
        + ((df.filter (fun r => r.tier.isSome)).length : ℚ) := by
  unfold tieredAuctionSum
  induction df with
  | nil => simp
  | cons r rest ih =>
      by_cases h : r.tier.isSome = true <;>
        · simp [List.filter_cons, h, ih]
          try ring

/-- C3 (amended): under the facts the pipeline establishes before this
step (all still-null-tier rows carry auction 0; the unscaled total is
nonzero; the tiered rows exactly fill the league rostered slots), the
sum of `auction` over the tiered (non-`FA`) players after the rescale
step is exactly `n_teams * 200` — the full league cap, as the code line
1656 itself checks — while `n_teams*200 − slots` is instead the tiered
total after scaling but before the per-player minimum bid is added. -/
theorem c3_auction_rescale_amended (nTeams slots : ℕ) (df : List PlayerA)
    (hFA : untieredAuctionSum df = 0)
    (htot : (df.map PlayerA.auction).sum ≠ 0)
    (hcount : (df.filter (fun r => r.tier.isSome)).length = slots) :
    tieredAuctionSum (rescaleAuction nTeams slots df) = (nTeams : ℚ) * 200
    ∧ tieredAuctionSum (df.map (fun r =>
        { r with auction := r.auction *
            (((nTeams : ℚ) * 200 - 1 * (slots : ℚ))
              / (df.map PlayerA.auction).sum) }))
      = (nTeams : ℚ) * 200 - 1 * (slots : ℚ) := by
  have hts : tieredAuctionSum df = (df.map PlayerA.auction).sum := by
    rw [auctionSum_split df, hFA, add_zero]
  have hscaled : tieredAuctionSum (df.map (fun r =>
      { r with auction := r.auction *
          (((nTeams : ℚ) * 200 - 1 * (slots : ℚ))
            / (df.map PlayerA.auction).sum) }))
      = (nTeams : ℚ) * 200 - 1 * (slots : ℚ) := by
    rw [tieredAuctionSum_scale, hts]
    field_simp
  refine ⟨?_, hscaled⟩
  show tieredAuctionSum
      ((df.map (fun r : PlayerA =>
        { r with auction := r.auction *
            (((nTeams : ℚ) * 200 - 1 * (slots : ℚ))
              / (df.map PlayerA.auction).sum) })).map
        (fun r : PlayerA => if r.tier.isSome
          then { r with auction := r.auction + 1 }
          else r)) = (nTeams : ℚ) * 200
  rw [tieredAuctionSum_addbid, hscaled, tieredCount_scale, hcount]
  ring

/-- The concrete table for the C3 counterexample and witness: one team,
two rostered slots, two tiered rows with unscaled auction 1 each, one
untiered row with auction 0. -/
def c3Table : List PlayerA :=
  [⟨some "RB1", 1⟩, ⟨some "QB1", 1⟩, ⟨none, 0⟩]

/-- C3 counterexample: with `n_teams = 1` and 2 total rostered slots, the
tiered auction total after the rescale step is 200 (= `n_teams*200`),
which differs from the claimed `n_teams*200 − slots = 198` by 2 — far
outside the 0.5 tolerance. -/
theorem c3_auction_rescale_counterexample :
    tieredAuctionSum (rescaleAuction 1 2 c3Table) = 200
    ∧ ¬ |tieredAuctionSum (rescaleAuction 1 2 c3Table)
          - ((1 : ℚ) * 200 - 1 * 2)| < 1/2 := by
  have h : tieredAuctionSum (rescaleAuction 1 2 c3Table) = 200 := by
    norm_num [rescaleAuction, c3Table, tieredAuctionSum, List.filter_cons]
  exact ⟨h, by rw [h]; norm_num⟩

/-- C3 amended-theorem witness: the amended theorem applied to the
concrete table. -/
theorem c3_auction_rescale_amended_witness :
    tieredAuctionSum (rescaleAuction 1 2 c3Table) = (1 : ℚ) * 200 :=
  (c3_auction_rescale_amended 1 2 c3Table
    (by norm_num [untieredAuctionSum, c3Table, List.filter_cons])
    (by norm_num [c3Table])
    (by norm_num [c3Table, List.filter_cons])).1

/-! ## draft_app.py: VOLS re-baselining and tier labelling (main, lines
1566-1573, 1582, 1639-1643, 1660)

The post-tiering available table is modelled by the columns these steps
read and write: `pos`, `tier` (`none` = still-null), `vols`, `volb`.
pandas `Series.min()` on an empty selection yields NaN, which would
poison the subtraction; this is modelled by `Option`: a step whose
baseline selection is empty returns `none`. -/

/-- A fantasy position code. -/
inductive Pos where
  | QB | RB | WR | TE | K | DST
  deriving DecidableEq, Repr

/-- `main_positions` (draft_app.py line 1400), in iteration order. -/
def main_positions : List Pos := [.QB, .RB, .WR, .TE, .K, .DST]

/-- `flex_pos = ['RB', 'WR', 'TE']` (line 1374). -/
def flex_pos : List Pos := [.RB, .WR, .TE]

/-- A row of the available table as seen by the re-baselining and
tier-labelling steps. -/
structure PlayerV where
  pos : Pos
  tier : Option String
  vols : ℚ
  volb : ℚ
  deriving DecidableEq, Repr

/-- pandas `Series.min()`: `none` models the NaN result on an empty
selection (vols values themselves are assumed non-NaN, as the pipeline
assigns one to every row in step 8). -/
def pandasMin : List ℚ → Option ℚ
  | [] => none
  | x :: xs => some (xs.foldl min x)

/-- The vols of `availdf.loc[(availdf.pos == pos) & (availdf.tier.notnull())]`. -/
def tieredVolsAt (pos : Pos) (df : List PlayerV) : List ℚ :=
  (df.filter (fun r => decide (r.pos = pos) && r.tier.isSome)).map PlayerV.vols

/-- The vols of `availdf.loc[availdf.pos.isin(flex_pos) & availdf.tier.notnull()]`. -/
def tieredVolsFlex (df : List PlayerV) : List ℚ :=
  (df.filter (fun r => decide (r.pos ∈ flex_pos) && r.tier.isSome)).map PlayerV.vols

/-- Line 1573: subtract the baseline from the `vols` of every row at one
position. -/
def subAt (pos : Pos) (m : ℚ) (df : List PlayerV) : List PlayerV :=
  df.map (fun r => if r.pos = pos then { r with vols := r.vols - m } else r)

/-- One iteration of the re-baselining loop (lines 1568-1573): take the
minimum tiered vols at the position, for flex positions the Python
`min` of it with the minimum tiered vols over all flex positions
(`min(x, nan) = x` in Python, hence the `some a, none` case), and
subtract it from every row of the position.  A NaN baseline (empty
tiered selection at the position) is `none`. -/
def rebaselineStep (df : List PlayerV) (pos : Pos) : Option (List PlayerV) :=
  (if pos ∈ flex_pos then
      match pandasMin (tieredVolsAt pos df), pandasMin (tieredVolsFlex df) with
      | some a, some b => some (min a b)
      | some a, none => some a
      | none, _ => none
    else pandasMin (tieredVolsAt pos df)).map
    (fun m => subAt pos m df)

/-- The re-baselining loop over the six positions, in source order.  Note
the sequential mutation: each flex position's step sees the vols already
shifted by the earlier steps. -/
def rebaselineVols (df : List PlayerV) : Option (List PlayerV) :=
  main_positions.foldlM rebaselineStep df

-- min lemmas

theorem foldl_min_le_init : ∀ (xs : List ℚ) (x : ℚ), xs.foldl min x ≤ x := by
  intro xs
  induction xs with
  | nil => intro x; simp
  | cons a l ih =>
      intro x
      simp only [List.foldl_cons]
      exact le_trans (ih (min x a)) (min_le_left _ _)

theorem foldl_min_le_mem :
    ∀ (xs : List ℚ) (x v : ℚ), v ∈ xs → xs.foldl min x ≤ v := by
  intro xs
  induction xs with
  | nil => intro x v hv; simp at hv
  | cons a l ih =>
      intro x v hv
      simp only [List.foldl_cons]
      rcases List.mem_cons.mp hv with h | h
      · subst h
        exact le_trans (foldl_min_le_init l (min x v)) (min_le_right _ _)
      · exact ih (min x a) v h

theorem foldl_min_mem :
    ∀ (xs : List ℚ) (x : ℚ), xs.foldl min x = x ∨ xs.foldl min x ∈ xs := by
  intro xs
  induction xs with
  | nil => intro x; left; rfl
  | cons a l ih =>
      intro x
      simp only [List.foldl_cons]
      rcases ih (min x a) with h | h
      · rw [h]
        rcases min_choice x a with h2 | h2
        · left; exact h2
        · right; rw [h2]; exact List.mem_cons_self a l
      · right; exact List.mem_cons_of_mem a h

theorem pandasMin_spec {l : List ℚ} {m : ℚ} (h : pandasMin l = some m) :
    m ∈ l ∧ ∀ v ∈ l, m ≤ v := by
  cases l with
  | nil => simp [pandasMin] at h
  | cons x xs =>
      simp only [pandasMin, Option.some.injEq] at h
      subst h
      constructor
      · rcases foldl_min_mem xs x with h | h
        · rw [h]; exact List.mem_cons_self x xs
        · exact List.mem_cons_of_mem x h
      · intro v hv
        rcases List.mem_cons.mp hv with h | h
        · subst h; exact foldl_min_le_init xs v
        · exact foldl_min_le_mem xs x v h

theorem pandasMin_ne_none {l : List ℚ} (h : l ≠ []) :
    ∃ m, pandasMin l = some m := by
  cases l with
  | nil => exact absurd rfl h
  | cons x xs => exact ⟨xs.foldl min x, rfl⟩

theorem foldl_min_map_sub (c : ℚ) :
    ∀ (xs : List ℚ) (x : ℚ),
      (xs.map (fun v => v - c)).foldl min (x - c) = xs.foldl min x - c := by
  intro xs
  induction xs with
  | nil => intro x; rfl
  | cons a l ih =>
      intro x
      simp only [List.map_cons, List.foldl_cons]
      rw [min_sub_sub_right, ih]

theorem pandasMin_map_sub (l : List ℚ) (c : ℚ) :
    pandasMin (l.map (fun v => v - c)) = (pandasMin l).map (fun v => v - c) := by
  cases l with
  | nil => rfl
  | cons x xs =>
      simp only [pandasMin, List.map_cons]
      rw [foldl_min_map_sub]
      rfl

-- subAt lemmas

theorem tieredVolsAt_subAt_ne (pos' pos : Pos) (m : ℚ) (df : List PlayerV)
    (h : pos' ≠ pos) :
    tieredVolsAt pos' (subAt pos m df) = tieredVolsAt pos' df := by
  unfold tieredVolsAt subAt
  induction df with
  | nil => rfl
  | cons r rest ih =>
      simp only [List.map_cons, List.filter_cons]
      by_cases hp : r.pos = pos
      · rw [if_pos hp]
        have hne : (decide ((({ r with vols := r.vols - m } : PlayerV)).pos = pos')
            && (({ r with vols := r.vols - m } : PlayerV)).tier.isSome) = false := by
          simp only [Bool.and_eq_false_iff, decide_eq_false_iff_not]
          left
          rw [hp]
          exact fun he => h he.symm
        have hne2 : (decide (r.pos = pos') && r.tier.isSome) = false := by
          simp only [Bool.and_eq_false_iff, decide_eq_false_iff_not]
          left
          rw [hp]
          exact fun he => h he.symm
        simp only [hne, hne2, Bool.false_eq_true, if_neg, if_false]
        exact ih
      · rw [if_neg hp]
        by_cases hq : (decide (r.pos = pos') && r.tier.isSome) = true
        · rw [if_pos hq, if_pos hq]
          simp only [List.map_cons]
          rw [ih]
        · rw [if_neg hq, if_neg hq]
          exact ih

theorem tieredVolsAt_subAt_eq (pos : Pos) (m : ℚ) (df : List PlayerV) :
    tieredVolsAt pos (subAt pos m df)
      = (tieredVolsAt pos df).map (fun v => v - m) := by
  unfold tieredVolsAt subAt
  induction df with
  | nil => rfl
  | cons r rest ih =>
      simp only [List.map_cons, List.filter_cons]
      by_cases hp : r.pos = pos
      · rw [if_pos hp]
        by_cases ht : r.tier.isSome = true
        · have hc : (decide ((({ r with vols := r.vols - m } : PlayerV)).pos = pos)
              && (({ r with vols := r.vols - m } : PlayerV)).tier.isSome) = true := by
            simp [hp, ht]
          have hc2 : (decide (r.pos = pos) && r.tier.isSome) = true := by
            simp [hp, ht]
          rw [if_pos hc, if_pos hc2]
          simp only [List.map_cons]
          rw [ih]
        · have hc : ¬ ((decide ((({ r with vols := r.vols - m } : PlayerV)).pos = pos)
              && (({ r with vols := r.vols - m } : PlayerV)).tier.isSome) = true) := by
            simp [ht]
          have hc2 : ¬ ((decide (r.pos = pos) && r.tier.isSome) = true) := by
            simp [ht]
          rw [if_neg hc, if_neg hc2]
          exact ih
      · rw [if_neg hp]
        have hc : ¬ ((decide (r.pos = pos) && r.tier.isSome) = true) := by
          simp [hp]
        rw [if_neg hc, if_neg hc]
        exact ih

theorem mem_of_tieredVolsAt {pos : Pos} {df : List PlayerV} {v : ℚ}
    (h : v ∈ tieredVolsAt pos df) :
    ∃ r ∈ df, r.pos = pos ∧ r.tier.isSome = true ∧ r.vols = v := by
  unfold tieredVolsAt at h
  obtain ⟨r, hr, hrv⟩ := List.mem_map.mp h
  have h2 := List.mem_filter.mp hr
  have h3 := h2.2
  simp only [Bool.and_eq_true, decide_eq_true_eq] at h3
  exact ⟨r, h2.1, h3.1, h3.2, hrv⟩

theorem rebaselineStep_spec (df : List PlayerV) (pos : Pos)
    (h : tieredVolsAt pos df ≠ []) :
    ∃ m, rebaselineStep df pos = some (subAt pos m df)
      ∧ (∀ v ∈ tieredVolsAt pos df, m ≤ v)
      ∧ (pos ∉ flex_pos → pandasMin (tieredVolsAt pos df) = some m) := by
  obtain ⟨a, ha⟩ := pandasMin_ne_none h
  by_cases hf : pos ∈ flex_pos
  · obtain ⟨v, hv⟩ := List.exists_mem_of_ne_nil _ h
    obtain ⟨r, hr, hrpos, hrt, hrv⟩ := mem_of_tieredVolsAt hv
    have hflexne : tieredVolsFlex df ≠ [] := by
      intro hnil
      have hmem : r.vols ∈ tieredVolsFlex df := by
        unfold tieredVolsFlex
        apply List.mem_map.mpr
        refine ⟨r, List.mem_filter.mpr ⟨hr, ?_⟩, rfl⟩
        simp only [Bool.and_eq_true, decide_eq_true_eq]
        exact ⟨hrpos ▸ hf, hrt⟩
      rw [hnil] at hmem
      simp at hmem
    obtain ⟨b, hb⟩ := pandasMin_ne_none hflexne
    refine ⟨min a b, ?_, ?_, fun hnf => absurd hf hnf⟩
    · unfold rebaselineStep
      rw [ha, hb, if_pos hf]
      rfl
    · intro v hv
      exact le_trans (min_le_left a b) ((pandasMin_spec ha).2 v hv)
  · refine ⟨a, ?_, (pandasMin_spec ha).2, fun _ => ha⟩
    unfold rebaselineStep
    rw [ha, if_neg hf]
    rfl

theorem nonneg_of_map_sub {l : List ℚ} {m : ℚ} (hle : ∀ w ∈ l, m ≤ w) :
    ∀ v ∈ l.map (fun v => v - m), 0 ≤ v := by
  intro v hv
  obtain ⟨w, hw, rfl⟩ := List.mem_map.mp hv
  have := hle w hw
  linarith

/-- After the re-baselining loop: at QB, K and DST the minimum tiered
vols is exactly 0; at every position all tiered vols are nonnegative. -/
theorem rebaselineVols_spec (df : List PlayerV)
    (h : ∀ pos ∈ main_positions, tieredVolsAt pos df ≠ []) :
    ∃ d6, rebaselineVols df = some d6
      ∧ (∀ pos ∈ ([Pos.QB, Pos.K, Pos.DST] : List Pos),
          pandasMin (tieredVolsAt pos d6) = some 0)
      ∧ (∀ pos : Pos, ∀ v ∈ tieredVolsAt pos d6, 0 ≤ v) := by
  have hQB := h .QB (by simp [main_positions])
  have hRB := h .RB (by simp [main_positions])
  have hWR := h .WR (by simp [main_positions])
  have hTE := h .TE (by simp [main_positions])
  have hK := h .K (by simp [main_positions])
  have hDST := h .DST (by simp [main_positions])
  obtain ⟨m1, e1, le1, ex1⟩ := rebaselineStep_spec df .QB hQB
  set d1 : List PlayerV := subAt .QB m1 df with hd1
  have t1QB : tieredVolsAt .QB d1 = (tieredVolsAt .QB df).map (fun v => v - m1) := tieredVolsAt_subAt_eq _ _ _
  have t1RB : tieredVolsAt .RB d1 = tieredVolsAt .RB df := tieredVolsAt_subAt_ne _ _ _ _ (by decide)
  have t1WR : tieredVolsAt .WR d1 = tieredVolsAt .WR df := tieredVolsAt_subAt_ne _ _ _ _ (by decide)
  have t1TE : tieredVolsAt .TE d1 = tieredVolsAt .TE df := tieredVolsAt_subAt_ne _ _ _ _ (by decide)
  have t1K : tieredVolsAt .K d1 = tieredVolsAt .K df := tieredVolsAt_subAt_ne _ _ _ _ (by decide)
  have t1DST : tieredVolsAt .DST d1 = tieredVolsAt .DST df := tieredVolsAt_subAt_ne _ _ _ _ (by decide)
  obtain ⟨m2, e2, le2, _⟩ := rebaselineStep_spec d1 .RB
    (by rw [t1RB]; exact hRB)
  set d2 : List PlayerV := subAt .RB m2 d1 with hd2
  have t2QB : tieredVolsAt .QB d2 = tieredVolsAt .QB d1 := tieredVolsAt_subAt_ne _ _ _ _ (by decide)
  have t2RB : tieredVolsAt .RB d2 = (tieredVolsAt .RB d1).map (fun v => v - m2) := tieredVolsAt_subAt_eq _ _ _
  have t2WR : tieredVolsAt .WR d2 = tieredVolsAt .WR d1 := tieredVolsAt_subAt_ne _ _ _ _ (by decide)
  have t2TE : tieredVolsAt .TE d2 = tieredVolsAt .TE d1 := tieredVolsAt_subAt_ne _ _ _ _ (by decide)
  have t2K : tieredVolsAt .K d2 = tieredVolsAt .K d1 := tieredVolsAt_subAt_ne _ _ _ _ (by decide)
  have t2DST : tieredVolsAt .DST d2 = tieredVolsAt .DST d1 := tieredVolsAt_subAt_ne _ _ _ _ (by decide)
  obtain ⟨m3, e3, le3, _⟩ := rebaselineStep_spec d2 .WR
    (by rw [t2WR, t1WR]; exact hWR)
  set d3 : List PlayerV := subAt .WR m3 d2 with hd3
  have t3QB : tieredVolsAt .QB d3 = tieredVolsAt .QB d2 := tieredVolsAt_subAt_ne _ _ _ _ (by decide)
  have t3RB : tieredVolsAt .RB d3 = tieredVolsAt .RB d2 := tieredVolsAt_subAt_ne _ _ _ _ (by decide)
  have t3WR : tieredVolsAt .WR d3 = (tieredVolsAt .WR d2).map (fun v => v - m3) := tieredVolsAt_subAt_eq _ _ _
  have t3TE : tieredVolsAt .TE d3 = tieredVolsAt .TE d2 := tieredVolsAt_subAt_ne _ _ _ _ (by decide)
  have t3K : tieredVolsAt .K d3 = tieredVolsAt .K d2 := tieredVolsAt_subAt_ne _ _ _ _ (by decide)
  have t3DST : tieredVolsAt .DST d3 = tieredVolsAt .DST d2 := tieredVolsAt_subAt_ne _ _ _ _ (by decide)
  obtain ⟨m4, e4, le4, _⟩ := rebaselineStep_spec d3 .TE
    (by rw [t3TE, t2TE, t1TE]; exact hTE)
  set d4 : List PlayerV := subAt .TE m4 d3 with hd4
  have t4QB : tieredVolsAt .QB d4 = tieredVolsAt .QB d3 := tieredVolsAt_subAt_ne _ _ _ _ (by decide)
  have t4RB : tieredVolsAt .RB d4 = tieredVolsAt .RB d3 := tieredVolsAt_subAt_ne _ _ _ _ (by decide)
  have t4WR : tieredVolsAt .WR d4 = tieredVolsAt .WR d3 := tieredVolsAt_subAt_ne _ _ _ _ (by decide)
  have t4TE : tieredVolsAt .TE d4 = (tieredVolsAt .TE d3).map (fun v => v - m4) := tieredVolsAt_subAt_eq _ _ _
  have t4K : tieredVolsAt .K d4 = tieredVolsAt .K d3 := tieredVolsAt_subAt_ne _ _ _ _ (by decide)
  have t4DST : tieredVolsAt .DST d4 = tieredVolsAt .DST d3 := tieredVolsAt_subAt_ne _ _ _ _ (by decide)
  obtain ⟨m5, e5, le5, ex5⟩ := rebaselineStep_spec d4 .K
    (by rw [t4K, t3K, t2K, t1K]; exact hK)
  set d5 : List PlayerV := subAt .K m5 d4 with hd5
  have t5QB : tieredVolsAt .QB d5 = tieredVolsAt .QB d4 := tieredVolsAt_subAt_ne _ _ _ _ (by decide)
  have t5RB : tieredVolsAt .RB d5 = tieredVolsAt .RB d4 := tieredVolsAt_subAt_ne _ _ _ _ (by decide)
  have t5WR : tieredVolsAt .WR d5 = tieredVolsAt .WR d4 := tieredVolsAt_subAt_ne _ _ _ _ (by decide)
  have t5TE : tieredVolsAt .TE d5 = tieredVolsAt .TE d4 := tieredVolsAt_subAt_ne _ _ _ _ (by decide)
  have t5K : tieredVolsAt .K d5 = (tieredVolsAt .K d4).map (fun v => v - m5) := tieredVolsAt_subAt_eq _ _ _
  have t5DST : tieredVolsAt .DST d5 = tieredVolsAt .DST d4 := tieredVolsAt_subAt_ne _ _ _ _ (by decide)
  obtain ⟨m6, e6, le6, ex6⟩ := rebaselineStep_spec d5 .DST
    (by rw [t5DST, t4DST, t3DST, t2DST, t1DST]; exact hDST)
  set d6 : List PlayerV := subAt .DST m6 d5 with hd6
  have t6QB : tieredVolsAt .QB d6 = tieredVolsAt .QB d5 := tieredVolsAt_subAt_ne _ _ _ _ (by decide)
  have t6RB : tieredVolsAt .RB d6 = tieredVolsAt .RB d5 := tieredVolsAt_subAt_ne _ _ _ _ (by decide)
  have t6WR : tieredVolsAt .WR d6 = tieredVolsAt .WR d5 := tieredVolsAt_subAt_ne _ _ _ _ (by decide)
  have t6TE : tieredVolsAt .TE d6 = tieredVolsAt .TE d5 := tieredVolsAt_subAt_ne _ _ _ _ (by decide)
  have t6K : tieredVolsAt .K d6 = tieredVolsAt .K d5 := tieredVolsAt_subAt_ne _ _ _ _ (by decide)
  have t6DST : tieredVolsAt .DST d6 = (tieredVolsAt .DST d5).map (fun v => v - m6) := tieredVolsAt_subAt_eq _ _ _
  refine ⟨d6, ?_, ?_, ?_⟩
  · show List.foldlM rebaselineStep df main_positions = some d6
    simp only [main_positions, List.foldlM, Option.bind_eq_bind]
    rw [e1, Option.some_bind, e2, Option.some_bind, e3, Option.some_bind,
      e4, Option.some_bind, e5, Option.some_bind, e6, Option.some_bind]
    rfl
  · intro pos hpos
    simp only [List.mem_cons, List.not_mem_nil, or_false] at hpos
    rcases hpos with rfl | rfl | rfl
    · rw [t6QB, t5QB, t4QB, t3QB, t2QB]
      rw [t1QB, pandasMin_map_sub]
      have hx := ex1 (by decide)
      rw [hx]
      simp
    · rw [t6K]
      rw [t5K, pandasMin_map_sub]
      have hx := ex5 (by decide)
      rw [hx]
      simp
    · rw [t6DST, pandasMin_map_sub]
      have hx := ex6 (by decide)
      rw [hx]
      simp
  · intro pos
    cases pos
    · rw [t6QB, t5QB, t4QB, t3QB, t2QB]
      rw [t1QB]
      exact nonneg_of_map_sub le1
    · rw [t6RB, t5RB, t4RB, t3RB]
      rw [t2RB]
      exact nonneg_of_map_sub le2
    · rw [t6WR, t5WR, t4WR]
      rw [t3WR]
      exact nonneg_of_map_sub le3
    · rw [t6TE, t5TE]
      rw [t4TE]
      exact nonneg_of_map_sub le4
    · rw [t6K]
      rw [t5K]
      exact nonneg_of_map_sub le5
    · rw [t6DST]
      exact nonneg_of_map_sub le6

/-- The number of rows selected by pandas `head(n)` from a frame of
`len` rows: for negative `n`, `head` drops the last `|n|` rows. -/
def pandasHeadCount (n : ℤ) (len : ℕ) : ℕ :=
  if 0 ≤ n then min n.toNat len else len - (-n).toNat

/-- Lines 1641-1643: label the first `k` still-untiered rows (in current
row order) as `BU`. -/
def buFillFirst : ℕ → List PlayerV → List PlayerV
  | _, [] => []
  | k, r :: rest =>
      if k = 0 then r :: rest
      else if r.tier.isNone then
        { r with tier := some "BU" } :: buFillFirst (k - 1) rest
      else r :: buFillFirst k rest

/-- The tier-labelling steps that follow the re-baseline: line 1582
(`total_start_positions`), line 1639 (untiered rows with `volb >= 0`
become `BU`), lines 1641-1643 (fill remaining backup slots), line 1660
(remaining untiered rows become `FA`).  The auction steps in between
touch neither `tier` nor `vols`. -/
def labelTail (benchSlots : ℕ) (df0 : List PlayerV) : List PlayerV :=
  let totalStart := (df0.filter (fun r => r.tier.isSome)).length
  let df1 := df0.map (fun r =>
    if r.tier.isNone && decide (0 ≤ r.volb) then { r with tier := some "BU" }
    else r)
  let nMore : ℤ := (totalStart : ℤ) + (benchSlots : ℤ)
    - ((df1.filter (fun r => r.tier.isSome)).length : ℤ)
  let k := pandasHeadCount nMore (df1.filter (fun r => r.tier.isNone)).length
  (buFillFirst k df1).map
    (fun r => if r.tier.isNone then { r with tier := some "FA" } else r)

/-- The pipeline from the re-baselining step to the final `FA`
labelling, as a function of the post-tiering table. -/
def pipelineTail (benchSlots : ℕ) (df : List PlayerV) : Option (List PlayerV) :=
  (rebaselineVols df).map (labelTail benchSlots)

/-- The vols of the rows holding a starter or FLEX tier label (tiered
before the `BU`/`FA` assignment). -/
def starterVolsAt (pos : Pos) (df : List PlayerV) : List ℚ :=
  (df.filter (fun r => decide (r.pos = pos) && r.tier.isSome
    && decide (r.tier ≠ some "BU") && decide (r.tier ≠ some "FA"))).map
    PlayerV.vols

/-- The vols of the rows whose tier label is present and not `FA` — the
claim's "tiered (non-FA) players". -/
def nonFAVolsAt (pos : Pos) (df : List PlayerV) : List ℚ :=
  (df.filter (fun r => decide (r.pos = pos) && r.tier.isSome
    && decide (r.tier ≠ some "FA"))).map PlayerV.vols

/-- The starter rows are among the non-`FA` rows, so every starter vols
value appears in the non-`FA` selection. -/
theorem mem_nonFAVolsAt_of_starter (pos : Pos) (df : List PlayerV) :
    ∀ v ∈ starterVolsAt pos df, v ∈ nonFAVolsAt pos df := by
  intro v hv
  unfold starterVolsAt at hv
  unfold nonFAVolsAt
  obtain ⟨r, hr, hvr⟩ := List.mem_map.mp hv
  obtain ⟨hrd, hp⟩ := List.mem_filter.mp hr
  refine List.mem_map.mpr ⟨r, List.mem_filter.mpr ⟨hrd, ?_⟩, hvr⟩
  simp only [Bool.and_eq_true] at hp ⊢
  exact ⟨hp.1.1, hp.2⟩

theorem starterVolsAt_buMap (pos : Pos) (df : List PlayerV) :
    starterVolsAt pos (df.map (fun r =>
      if r.tier.isNone && decide (0 ≤ r.volb) then { r with tier := some "BU" }
      else r)) = starterVolsAt pos df := by
  unfold starterVolsAt
  induction df with
  | nil => rfl
  | cons r rest ih =>
      simp only [List.map_cons]
      cases ht : r.tier with
      | none =>
          by_cases hv : (0 : ℚ) ≤ r.volb
          · rw [if_pos (by simp [ht, hv])]
            simp only [List.filter_cons]
            rw [if_neg (by simp), if_neg (by simp [ht])]
            exact ih
          · rw [if_neg (by simp [hv])]
            simp only [List.filter_cons]
            rw [if_neg (by simp [ht]), if_neg (by simp [ht])]
            exact ih
      | some t =>
          rw [if_neg (by simp [ht])]
          simp only [List.filter_cons]
          by_cases hq : (decide (r.pos = pos) && r.tier.isSome
              && decide (r.tier ≠ some "BU") && decide (r.tier ≠ some "FA"))
              = true
          · rw [if_pos hq, if_pos hq]
            simp only [List.map_cons]
            rw [ih]
          · rw [if_neg hq, if_neg hq]
            exact ih

theorem starterVolsAt_faMap (pos : Pos) (df : List PlayerV) :
    starterVolsAt pos (df.map (fun r =>
      if r.tier.isNone then { r with tier := some "FA" } else r))
      = starterVolsAt pos df := by
  unfold starterVolsAt
  induction df with
  | nil => rfl
  | cons r rest ih =>
      simp only [List.map_cons]
      cases ht : r.tier with
      | none =>
          rw [if_pos (by simp [ht])]
          simp only [List.filter_cons]
          rw [if_neg (by simp), if_neg (by simp [ht])]
          exact ih
      | some t =>
          rw [if_neg (by simp [ht])]
          simp only [List.filter_cons]
          by_cases hq : (decide (r.pos = pos) && r.tier.isSome
              && decide (r.tier ≠ some "BU") && decide (r.tier ≠ some "FA"))
              = true
          · rw [if_pos hq, if_pos hq]
            simp only [List.map_cons]
            rw [ih]
          · rw [if_neg hq, if_neg hq]
            exact ih

theorem starterVolsAt_buFill (pos : Pos) :
    ∀ (df : List PlayerV) (k : ℕ),
      starterVolsAt pos (buFillFirst k df) = starterVolsAt pos df := by
  intro df
  induction df with
  | nil => intro k; cases k <;> rfl
  | cons r rest ih =>
      intro k
      unfold buFillFirst
      by_cases hk : k = 0
      · rw [if_pos hk]
      · rw [if_neg hk]
        cases ht : r.tier with
        | none =>
            rw [if_pos (by simp [ht])]
            unfold starterVolsAt
            simp only [List.filter_cons]
            rw [if_neg (by simp), if_neg (by simp [ht])]
            have := ih (k - 1)
            unfold starterVolsAt at this
            exact this
        | some t =>
            rw [if_neg (by simp [ht])]
            unfold starterVolsAt
            simp only [List.filter_cons]
            by_cases hq : (decide (r.pos = pos) && r.tier.isSome
                && decide (r.tier ≠ some "BU") && decide (r.tier ≠ some "FA"))
                = true
            · rw [if_pos hq, if_pos hq]
              simp only [List.map_cons]
              have := ih k
              unfold starterVolsAt at this
              rw [this]
            · rw [if_neg hq, if_neg hq]
              have := ih k
              unfold starterVolsAt at this
              exact this

theorem starterVolsAt_eq_tiered (pos : Pos) (df : List PlayerV)
    (h : ∀ r ∈ df, r.tier ≠ some "BU" ∧ r.tier ≠ some "FA") :
    starterVolsAt pos df = tieredVolsAt pos df := by
  unfold starterVolsAt tieredVolsAt
  induction df with
  | nil => rfl
  | cons r rest ih =>
      have hr := h r (by simp)
      have hrest : ∀ x ∈ rest, x.tier ≠ some "BU" ∧ x.tier ≠ some "FA" :=
        fun x hx => h x (by simp [hx])
      simp only [List.filter_cons]
      have heq : (decide (r.pos = pos) && r.tier.isSome
          && decide (r.tier ≠ some "BU") && decide (r.tier ≠ some "FA"))
          = (decide (r.pos = pos) && r.tier.isSome) := by
        simp [hr.1, hr.2]
      rw [heq]
      by_cases hq : (decide (r.pos = pos) && r.tier.isSome) = true
      · rw [if_pos hq, if_pos hq]
        simp only [List.map_cons]
        rw [ih hrest]
      · rw [if_neg hq, if_neg hq]
        exact ih hrest

theorem subAt_tiers (pos : Pos) (m : ℚ) (df : List PlayerV) :
    (subAt pos m df).map PlayerV.tier = df.map PlayerV.tier := by
  unfold subAt
  induction df with
  | nil => rfl
  | cons r rest ih =>
      simp only [List.map_cons]
      by_cases hp : r.pos = pos
      · rw [if_pos hp]
        simp [ih]
      · rw [if_neg hp]
        simp [ih]

theorem rebaselineStep_shape {df d : List PlayerV} {pos : Pos}
    (h : rebaselineStep df pos = some d) : ∃ m, d = subAt pos m df := by
  unfold rebaselineStep at h
  by_cases hf : pos ∈ flex_pos
  · rw [if_pos hf] at h
    cases h1 : pandasMin (tieredVolsAt pos df) with
    | none =>
        rw [h1] at h
        cases h2 : pandasMin (tieredVolsFlex df) <;> rw [h2] at h <;>
        · have h' : (none : Option (List PlayerV)) = some d := h
          simp at h'
    | some a =>
        rw [h1] at h
        cases h2 : pandasMin (tieredVolsFlex df) with
        | none =>
            rw [h2] at h
            have h' : some (subAt pos a df) = some d := h
            exact ⟨a, (Option.some.inj h').symm⟩
        | some b =>
            rw [h2] at h
            have h' : some (subAt pos (min a b) df) = some d := h
            exact ⟨min a b, (Option.some.inj h').symm⟩
  · rw [if_neg hf] at h
    cases h1 : pandasMin (tieredVolsAt pos df) with
    | none =>
        rw [h1] at h
        have h' : (none : Option (List PlayerV)) = some d := h
        simp at h'
    | some a =>
        rw [h1] at h
        have h' : some (subAt pos a df) = some d := h
        exact ⟨a, (Option.some.inj h').symm⟩

theorem foldlM_rebaseline_tiers :
    ∀ (ps : List Pos) (df d : List PlayerV),
      List.foldlM rebaselineStep df ps = some d →
      d.map PlayerV.tier = df.map PlayerV.tier := by
  intro ps
  induction ps with
  | nil =>
      intro df d h
      simp only [List.foldlM_nil] at h
      cases h
      rfl
  | cons p ps ih =>
      intro df d h
      simp only [List.foldlM_cons, Option.bind_eq_bind] at h
      cases hstep : rebaselineStep df p with
      | none => rw [hstep] at h; simp at h
      | some d1 =>
          rw [hstep, Option.some_bind] at h
          obtain ⟨m, hm⟩ := rebaselineStep_shape hstep
          calc d.map PlayerV.tier = d1.map PlayerV.tier := ih d1 d h
            _ = df.map PlayerV.tier := by rw [hm]; exact subAt_tiers _ _ _

theorem starterVolsAt_labelTail (pos : Pos) (b : ℕ) (d : List PlayerV) :
    starterVolsAt pos (labelTail b d) = starterVolsAt pos d := by
  unfold labelTail
  simp only [starterVolsAt_faMap, starterVolsAt_buFill, starterVolsAt_buMap]

/-- C2 (amended): once the startup value pipeline completes, among the
players holding a starter or FLEX tier label (a tier other than the
later `BU` and `FA` labels) the `vols` are nonnegative at every
position and their minimum is exactly 0 at the non-flex positions QB, K
and DST; over the claim's full population — all tiered non-`FA`
players, the `BU` backups included — the minimum at a non-flex position
is only at most 0, since the `BU` rows are re-baselined together with
their position and may sit strictly below zero.  The claim's per-
position zero-minimum fails both ways: a flex position whose own worst
tiered starter is not the league-wide worst flex starter is shifted by
the smaller flex-wide baseline and keeps a strictly positive minimum,
and a `BU` backup can drag a non-flex minimum below zero (the
counterexample shows both). -/
theorem c2_vols_rebaseline_amended (benchSlots : ℕ) (df : List PlayerV)
    (hne : ∀ pos ∈ main_positions, tieredVolsAt pos df ≠ [])
    (hlabels : ∀ r ∈ df, r.tier ≠ some "BU" ∧ r.tier ≠ some "FA") :
    ∃ dfFinal, pipelineTail benchSlots df = some dfFinal
      ∧ (∀ pos ∈ ([Pos.QB, Pos.K, Pos.DST] : List Pos),
          pandasMin (starterVolsAt pos dfFinal) = some 0)
      ∧ (∀ pos : Pos, ∀ v ∈ starterVolsAt pos dfFinal, 0 ≤ v)
      ∧ (∀ pos ∈ ([Pos.QB, Pos.K, Pos.DST] : List Pos),
          ∃ m, pandasMin (nonFAVolsAt pos dfFinal) = some m ∧ m ≤ 0) := by
  obtain ⟨d6, he, hmin, hnn⟩ := rebaselineVols_spec df hne
  have htier : d6.map PlayerV.tier = df.map PlayerV.tier :=
    foldlM_rebaseline_tiers main_positions df d6 he
  have hlabels6 : ∀ r ∈ d6, r.tier ≠ some "BU" ∧ r.tier ≠ some "FA" := by
    intro r hr
    have hmem : r.tier ∈ d6.map PlayerV.tier := List.mem_map_of_mem _ hr
    rw [htier] at hmem
    obtain ⟨r0, hr0, heq⟩ := List.mem_map.mp hmem
    exact heq ▸ hlabels r0 hr0
  have hsv : ∀ pos, starterVolsAt pos (labelTail benchSlots d6)
      = tieredVolsAt pos d6 := by
    intro pos
    rw [starterVolsAt_labelTail, starterVolsAt_eq_tiered pos d6 hlabels6]
  refine ⟨labelTail benchSlots d6, ?_, ?_, ?_, ?_⟩
  · unfold pipelineTail
    rw [he]
    rfl
  · intro pos hpos
    rw [hsv]
    exact hmin pos hpos
  · intro pos v hv
    rw [hsv] at hv
    exact hnn pos v hv
  · intro pos hpos
    have h0 : pandasMin (starterVolsAt pos (labelTail benchSlots d6))
        = some 0 := by rw [hsv]; exact hmin pos hpos
    have h0mem : (0 : ℚ) ∈ starterVolsAt pos (labelTail benchSlots d6) :=
      (pandasMin_spec h0).1
    have h0non : (0 : ℚ) ∈ nonFAVolsAt pos (labelTail benchSlots d6) :=
      mem_nonFAVolsAt_of_starter pos _ 0 h0mem
    have hnem : nonFAVolsAt pos (labelTail benchSlots d6) ≠ [] := by
      intro hc
      rw [hc] at h0non
      simp at h0non
    obtain ⟨m, hm⟩ := pandasMin_ne_none hnem
    exact ⟨m, hm, (pandasMin_spec hm).2 0 h0non⟩

/-- Post-tiering table for the C2 counterexample: one tiered player per
position plus one still-untiered QB backup (vols 2, volb 0).  The worst
tiered flex player is a WR (vols 1), so RB (vols 3) is re-baselined by
the flex-wide minimum 1 rather than its own minimum; the backup QB is
re-baselined along with QB (2 - 5 = -3) and then labelled `BU` in step
12 since its volb is nonnegative. -/
def c2Table : List PlayerV :=
  [⟨.QB, some "QB1", 5, 0⟩, ⟨.QB, none, 2, 0⟩,
   ⟨.RB, some "RB1", 3, 0⟩, ⟨.WR, some "WR1", 1, 0⟩,
   ⟨.TE, some "TE1", 2, 0⟩, ⟨.K, some "K1", 0, 0⟩, ⟨.DST, some "DST1", 0, 0⟩]

/-- The table produced by `pipelineTail 0 c2Table`. -/
def c2Result : List PlayerV :=
  [⟨.QB, some "QB1", 0, 0⟩, ⟨.QB, some "BU", -3, 0⟩,
   ⟨.RB, some "RB1", 2, 0⟩, ⟨.WR, some "WR1", 0, 0⟩,
   ⟨.TE, some "TE1", 2, 0⟩, ⟨.K, some "K1", 0, 0⟩, ⟨.DST, some "DST1", 0, 0⟩]

/-- Evaluation of the pipeline on the counterexample table. -/
theorem c2_pipeline_eval : pipelineTail 0 c2Table = some c2Result := by
  simp +decide [pipelineTail, rebaselineVols, main_positions, List.foldlM,
    rebaselineStep, tieredVolsAt, tieredVolsFlex, flex_pos, pandasMin,
    subAt, c2Table, c2Result, labelTail, buFillFirst, pandasHeadCount,
    min_def]
  norm_num

/-- C2 counterexample: on `c2Table` the completed pipeline refutes the
per-position zero minimum over the tiered (non-`FA`) players in both
ways: the RB minimum is 2, not 0 (the RB baseline used the flex-wide
minimum 1, a WR, not RB's own minimum 3), and the QB minimum is -3, not
0 (the `BU` backup QB, also non-`FA`, was dragged below zero by the QB
baseline 5). -/
theorem c2_vols_rebaseline_counterexample :
    ((pipelineTail 0 c2Table).map (fun d => pandasMin (nonFAVolsAt Pos.RB d))
      = some (some 2)
    ∧ (pipelineTail 0 c2Table).map (fun d => pandasMin (nonFAVolsAt Pos.RB d))
      ≠ some (some 0))
    ∧ ((pipelineTail 0 c2Table).map (fun d => pandasMin (nonFAVolsAt Pos.QB d))
      = some (some (-3))
    ∧ (pipelineTail 0 c2Table).map (fun d => pandasMin (nonFAVolsAt Pos.QB d))
      ≠ some (some 0)) := by
  rw [c2_pipeline_eval]
  refine ⟨⟨?_, ?_⟩, ?_, ?_⟩ <;>
    simp +decide [nonFAVolsAt, pandasMin, c2Result, min_def]

/-- C2 amended-theorem witness: the amended theorem applied to the
concrete table. -/
theorem c2_vols_rebaseline_amended_witness :
    ∃ dfFinal, pipelineTail 0 c2Table = some dfFinal
      ∧ pandasMin (starterVolsAt Pos.QB dfFinal) = some 0
      ∧ (∀ v ∈ starterVolsAt Pos.RB dfFinal, 0 ≤ v)
      ∧ (∃ m, pandasMin (nonFAVolsAt Pos.QB dfFinal) = some m ∧ m ≤ 0) := by
  obtain ⟨dfFinal, he, hmin, hnn, hle⟩ :=
    c2_vols_rebaseline_amended 0 c2Table
      (by
        intro pos hpos
        fin_cases hpos <;>
          simp +decide [tieredVolsAt, c2Table])
      (by
        intro r hr
        fin_cases hr <;> simp)
  exact ⟨dfFinal, he, hmin Pos.QB (by simp), hnn Pos.RB, hle Pos.QB (by simp)⟩

/-! ## draft_app.py: player tables, pick/unpick, recommendations

pandas DataFrames with a stable integer index are modelled as association
lists of (index, row) pairs in row order.  `df.loc[i] = row` appends at
the end when the index is new and overwrites in place otherwise;
`df.drop(i)` removes the row. -/

/-- A row of the available table, with the columns the shell reads.  The
`vorp` column is data here; its recomputation (`_update_vorp`, run by
`precmd` before every command) is a function of the other columns and of
both tables only. -/
structure Row where
  player : String
  team : String
  pos : Pos
  exp_proj : ℚ
  vols : ℚ
  vbsd : ℚ
  volb : ℚ
  vorp : ℚ
  adp : ℚ
  ecp : ℚ
  auction : ℚ
  g : ℚ
  tier : Option String
  deriving DecidableEq, Repr

/-- A row of the picked table: the available-table columns plus the
`manager` and `pick` columns (`none` = NaN / column absent). -/
structure PickedRow where
  row : Row
  manager : Option ℤ
  pick : Option ℤ
  deriving DecidableEq, Repr

/-- `df.loc[i]` as a lookup. -/
def lookupIdx {α : Type} (t : List (ℕ × α)) (i : ℕ) : Option α :=
  (t.find? (fun p => decide (p.1 = i))).map Prod.snd

/-- `df.drop(i)`. -/
def dropIdx {α : Type} (t : List (ℕ × α)) (i : ℕ) : List (ℕ × α) :=
  t.filter (fun p => decide (p.1 ≠ i))

/-- `df.loc[i] = v`: overwrite if the index exists, else append. -/
def locSet {α : Type} (t : List (ℕ × α)) (i : ℕ) (v : α) : List (ℕ × α) :=
  if (t.find? (fun p => decide (p.1 = i))).isSome then
    t.map (fun p => if p.1 = i then (i, v) else p)
  else t ++ [(i, v)]

/-- `pop_from_player_list` (draft_app.py lines 172-199): raise
`IndexError` when `i` is not an available index; otherwise copy the row
into the picked table (`pp.loc[index] = player` aligns to pp's columns,
leaving `manager`/`pick` as NaN), set the `manager` and `pick` cells
when given (the two `astype(int)` calls are identities here since the
values are integers), and drop the row from the available table.
`popPickedRow` builds the picked-table row. -/
def popPickedRow (player : Row) (manager pickno : Option ℤ) : PickedRow :=
  let newRow : PickedRow := { row := player, manager := none, pick := none }
  let newRow := match manager with
    | none => newRow
    | some m => { newRow with manager := some m }
  match pickno with
  | none => newRow
  | some k => { newRow with pick := some k }

/-- The available-table columns of the row written by
`pop_from_player_list` are the popped player's, for any manager/pick. -/
theorem popPickedRow_row (player : Row) (manager pickno : Option ℤ) :
    (popPickedRow player manager pickno).row = player := by
  cases manager <;> cases pickno <;> rfl

/-- `pop_from_player_list` itself: error on an unknown index, else move
the row. -/
def pop_from_player_list (i : ℕ) (ap : List (ℕ × Row))
    (pp : List (ℕ × PickedRow)) (manager pickno : Option ℤ) :
    Except String (List (ℕ × Row) × List (ℕ × PickedRow)) :=
  match lookupIdx ap i with
  | none => .error "IndexError: the index does not indicate an available player"
  | some player => .ok (dropIdx ap i, locSet pp i (popPickedRow player manager pickno))

/-- `push_to_player_list` (lines 262-283): raise `IndexError` when `i`
is not a picked index; otherwise write the row back into the available
table (`ap.loc[index] = player` aligns the Series to ap's columns,
discarding the `manager`/`pick` entries) and drop it from the picked
table. -/
def push_to_player_list (i : ℕ) (ap : List (ℕ × Row))
    (pp : List (ℕ × PickedRow)) :
    Except String (List (ℕ × Row) × List (ℕ × PickedRow)) :=
  match lookupIdx pp i with
  | none => .error "IndexError: the index does not indicate a picked player"
  | some prow => .ok (locSet ap i prow.row, dropIdx pp i)

/-- The shell state the pick/unpick commands touch.  `i_manager_turn` is
kept as an integer: outside draft mode `manager_picks` is empty, which
is what the source's guards test first.  `manager_auto_strats` holds the
managers with an automatic strategy (the dict's keys). -/
structure DraftState where
  ap : List (ℕ × Row)
  pp : List (ℕ × PickedRow)
  draft_mode : Bool
  manager_picks : List ℤ
  i_manager_turn : ℤ
  manager_auto_strats : List ℤ

/-- Python list indexing (negative indices wrap from the end). -/
def pyIndex {α : Type} (l : List α) (i : ℤ) : Option α :=
  if 0 ≤ i then l.get? i.toNat
  else if (-i).toNat ≤ l.length then l.get? (l.length - (-i).toNat) else none

/-- `_get_current_manager` (lines 399-405). -/
def getCurrentManager (s : DraftState) : Option ℤ :=
  if s.manager_picks = [] then none
  else if (s.manager_picks.length : ℤ) ≤ s.i_manager_turn then none
  else pyIndex s.manager_picks s.i_manager_turn

/-- `_advance_snake` (lines 362-392): step the turn; the end-of-draft
interactive confirmation and the automatic-pick chain (recursion into
`_pick_rec`/`pop_from_player_list`) are outside this model and yield
`none`. -/
def advance_snake (s : DraftState) : Option DraftState :=
  let s := { s with i_manager_turn := s.i_manager_turn + 1 }
  if (s.manager_picks.length : ℤ) ≤ s.i_manager_turn then none
  else match getCurrentManager s with
    | some m => if m ∈ s.manager_auto_strats then none else some s
    | none => some s

/-- `_regress_snake` (lines 394-397). -/
def regress_snake (s : DraftState) : DraftState :=
  { s with i_manager_turn := s.i_manager_turn - 1 }

/-- `do_pick` (lines 981-1024) for an integer-index argument (the
name/strategy resolution paths are not taken for an index pick): record
`manager` and `pickno`, pop the player, and advance the snake in draft
mode.  A caught `IndexError` leaves the state unchanged.  The
`_update_vorp()` call is not modelled: it rewrites only the `vorp`
column as a function of the remaining state. -/
def do_pick_index (i : ℕ) (s : DraftState) : Option DraftState :=
  match pop_from_player_list i s.ap s.pp (getCurrentManager s)
      (if s.draft_mode then some (s.i_manager_turn + 1) else none) with
  | .error _ => some s
  | .ok (ap, pp) =>
      if s.draft_mode then advance_snake { s with ap := ap, pp := pp }
      else some { s with ap := ap, pp := pp }

/-- `do_unpick` (lines 1261-1279): move the last picked player
(`pp.index[-1]`) back to the available table and regress the snake in
draft mode; with no picked players, print and do nothing.  As in
`do_pick_index`, the `_update_vorp()` call only rewrites the `vorp`
column and is not modelled. -/
def do_unpick (s : DraftState) : Option DraftState :=
  if s.pp.isEmpty then some s
  else match s.pp.getLast? with
    | none => some s
    | some last =>
        match push_to_player_list last.1 s.ap s.pp with
        | .error _ => some s
        | .ok (ap, pp) =>
            some (if s.draft_mode
              then regress_snake { s with ap := ap, pp := pp }
              else { s with ap := ap, pp := pp })

/-- Looking up an absent index then setting it appends the row. -/
theorem locSet_of_absent {α : Type} (t : List (ℕ × α)) (i : ℕ) (v : α)
    (h : lookupIdx t i = none) : locSet t i v = t ++ [(i, v)] := by
  have hf : t.find? (fun p => decide (p.1 = i)) = none := by
    unfold lookupIdx at h
    cases hf : t.find? (fun p => decide (p.1 = i)) with
    | none => rfl
    | some x => rw [hf] at h; simp at h
  unfold locSet
  rw [hf]
  simp

/-- Dropping an absent index is the identity. -/
theorem dropIdx_of_absent {α : Type} (t : List (ℕ × α)) (i : ℕ)
    (h : lookupIdx t i = none) : dropIdx t i = t := by
  have hf : t.find? (fun p => decide (p.1 = i)) = none := by
    unfold lookupIdx at h
    cases hf : t.find? (fun p => decide (p.1 = i)) with
    | none => rfl
    | some x => rw [hf] at h; simp at h
  unfold dropIdx
  rw [List.filter_eq_self]
  intro a ha
  have := List.find?_eq_none.mp hf a ha
  simp only [decide_eq_true_eq] at this ⊢
  exact this

/-- Lookup in a table with one appended row, absent-index case. -/
theorem lookupIdx_append_of_none {α : Type} {t : List (ℕ × α)} {j : ℕ}
    (i : ℕ) (v : α) (h : lookupIdx t j = none) :
    lookupIdx (t ++ [(i, v)]) j = if j = i then some v else none := by
  have hf : t.find? (fun p => decide (p.1 = j)) = none := by
    unfold lookupIdx at h
    cases hf : t.find? (fun p => decide (p.1 = j)) with
    | none => rfl
    | some x => rw [hf] at h; simp at h
  unfold lookupIdx
  rw [List.find?_append, hf]
  by_cases hij : j = i
  · rw [if_pos hij]
    subst hij
    simp [List.find?]
  · rw [if_neg hij]
    have hd : (decide ((i, v).1 = j)) = false := by
      simp only [decide_eq_false_iff_not]
      exact fun he => hij he.symm
    simp [List.find?, hd]

/-- Lookup in a table with one appended row, present-index case. -/
theorem lookupIdx_append_of_some {α : Type} {t : List (ℕ × α)} {j : ℕ}
    {x : α} (i : ℕ) (v : α) (h : lookupIdx t j = some x) :
    lookupIdx (t ++ [(i, v)]) j = some x := by
  unfold lookupIdx at h ⊢
  cases hf : t.find? (fun p => decide (p.1 = j)) with
  | none => rw [hf] at h; simp at h
  | some y =>
      rw [hf] at h
      rw [List.find?_append, hf]
      simpa using h

/-- Lookup after a drop. -/
theorem lookupIdx_dropIdx {α : Type} (t : List (ℕ × α)) (i j : ℕ) :
    lookupIdx (dropIdx t i) j = if j = i then none else lookupIdx t j := by
  unfold lookupIdx dropIdx
  by_cases hij : j = i
  · rw [if_pos hij]
    subst hij
    cases hf : (t.filter (fun p => decide (p.1 ≠ j))).find?
        (fun p => decide (p.1 = j)) with
    | none => simp
    | some x =>
        have hx := List.find?_some hf
        have hmem := List.mem_filter.mp (List.mem_of_find?_eq_some hf)
        simp only [decide_eq_true_eq] at hx
        have h2 := hmem.2
        simp only [decide_eq_true_eq] at h2
        exact absurd hx h2
  · rw [if_neg hij]
    induction t with
    | nil => rfl
    | cons a rest ih =>
        by_cases hai : a.1 = i
        · rw [List.filter_cons_of_neg (by simp [hai])]
          have hd : (decide (a.1 = j)) = false := by
            simp only [decide_eq_false_iff_not]
            rw [hai]
            exact fun he => hij he.symm
          rw [List.find?_cons_of_neg _ (by simp [hd]), ih]
        · rw [List.filter_cons_of_pos (by simp [hai])]
          by_cases haj : a.1 = j
          · rw [List.find?_cons_of_pos _ (by simp [haj]),
              List.find?_cons_of_pos _ (by simp [haj])]
          · rw [List.find?_cons_of_neg _ (by simp [haj]),
              List.find?_cons_of_neg _ (by simp [haj]), ih]

/-- Dropping an appended fresh index restores the original table. -/
theorem dropIdx_append_self {α : Type} (t : List (ℕ × α)) (i : ℕ) (v : α)
    (h : lookupIdx t i = none) : dropIdx (t ++ [(i, v)]) i = t := by
  unfold dropIdx
  rw [List.filter_append]
  rw [show (([(i, v)] : List (ℕ × α)).filter (fun p => decide (p.1 ≠ i))) = []
    from by simp]
  rw [List.append_nil]
  exact dropIdx_of_absent t i h

/-- `_advance_snake` succeeds, stepping the turn by one, when the draft
does not end and no auto-strategy manager is up next. -/
theorem advance_snake_ok (st : DraftState)
    (hlen : st.i_manager_turn + 1 < (st.manager_picks.length : ℤ))
    (hauto : ∀ m, pyIndex st.manager_picks (st.i_manager_turn + 1) = some m →
      m ∉ st.manager_auto_strats) :
    advance_snake st = some { st with i_manager_turn := st.i_manager_turn + 1 } := by
  unfold advance_snake
  dsimp only
  rw [if_neg (by omega)]
  cases hcm : getCurrentManager { st with i_manager_turn := st.i_manager_turn + 1 } with
  | none => rfl
  | some m =>
      have hpy : pyIndex st.manager_picks (st.i_manager_turn + 1) = some m := by
        unfold getCurrentManager at hcm
        by_cases hnil : st.manager_picks = []
        · rw [if_pos (by simpa using hnil)] at hcm
          cases hcm
        · rw [if_neg (by simpa using hnil)] at hcm
          rw [if_neg (by simp; omega)] at hcm
          simpa using hcm
      dsimp only
      rw [if_neg (by simpa using hauto m hpy)]

/-- C6: picking the player at an available index `i` and immediately
unpicking restores both tables (same index-to-row association, hence the
same rows, column values and membership) and, in draft mode, moves the
draft-sequence turn forward and back by exactly one step.  Hypotheses:
`i` is available and not picked (the tables' exactly-one-membership
invariant), and in draft mode the pick neither ends the draft nor hands
the turn to an auto-strategy manager (those paths are interactive /
recursive and outside the model). -/
theorem c6_pick_unpick_roundtrip (s : DraftState) (i : ℕ) (row : Row)
    (hap : lookupIdx s.ap i = some row)
    (hpp : lookupIdx s.pp i = none)
    (hdm : s.draft_mode = true →
      s.i_manager_turn + 1 < (s.manager_picks.length : ℤ)
        ∧ ∀ m, pyIndex s.manager_picks (s.i_manager_turn + 1) = some m →
            m ∉ s.manager_auto_strats) :
    ∃ s1 s2, do_pick_index i s = some s1 ∧ do_unpick s1 = some s2
      ∧ (∀ j, lookupIdx s2.ap j = lookupIdx s.ap j)
      ∧ (∀ j, lookupIdx s2.pp j = lookupIdx s.pp j)
      ∧ s2.i_manager_turn = s.i_manager_turn
      ∧ s2.draft_mode = s.draft_mode
      ∧ (s.draft_mode = true → s1.i_manager_turn = s.i_manager_turn + 1) := by
  set nr : PickedRow := popPickedRow row (getCurrentManager s)
    (if s.draft_mode then some (s.i_manager_turn + 1) else none) with hnr
  have hnrrow : nr.row = row := by rw [hnr]; exact popPickedRow_row _ _ _
  have hpop : pop_from_player_list i s.ap s.pp (getCurrentManager s)
      (if s.draft_mode then some (s.i_manager_turn + 1) else none)
      = .ok (dropIdx s.ap i, s.pp ++ [(i, nr)]) := by
    unfold pop_from_player_list
    rw [hap]
    dsimp only
    rw [locSet_of_absent s.pp i _ hpp]
  -- unpicking from any state holding the post-pick tables restores them
  have hunpick : ∀ (dm : Bool) (t : ℤ) (pks auto : List ℤ),
      do_unpick { ap := dropIdx s.ap i, pp := s.pp ++ [(i, nr)], draft_mode := dm, manager_picks := pks, i_manager_turn := t, manager_auto_strats := auto }
        = some { ap := dropIdx s.ap i ++ [(i, row)], pp := s.pp, draft_mode := dm, manager_picks := pks, i_manager_turn := if dm then t - 1 else t, manager_auto_strats := auto } := by
    intro dm t pks auto
    unfold do_unpick
    rw [if_neg (by simp)]
    have hlast : (s.pp ++ [(i, nr)]).getLast? = some (i, nr) := by
      simp [List.getLast?_append]
    have hlook1 : lookupIdx (s.pp ++ [(i, nr)]) i = some nr := by
      rw [lookupIdx_append_of_none i nr hpp]
      simp
    have hpush : push_to_player_list i (dropIdx s.ap i) (s.pp ++ [(i, nr)])
        = .ok (locSet (dropIdx s.ap i) i nr.row, dropIdx (s.pp ++ [(i, nr)]) i) := by
      unfold push_to_player_list
      rw [hlook1]
    have hlocap : locSet (dropIdx s.ap i) i nr.row
        = dropIdx s.ap i ++ [(i, row)] := by
      rw [hnrrow]
      apply locSet_of_absent
      rw [lookupIdx_dropIdx]
      simp
    have hdroppp : dropIdx (s.pp ++ [(i, nr)]) i = s.pp :=
      dropIdx_append_self _ _ _ hpp
    simp only [hlast]
    rw [hpush, hlocap, hdroppp]
    cases dm with
    | true => simp [regress_snake]
    | false => simp
  have htables : ∀ (s2 : DraftState),
      s2.ap = dropIdx s.ap i ++ [(i, row)] → s2.pp = s.pp →
      (∀ j, lookupIdx s2.ap j = lookupIdx s.ap j)
        ∧ (∀ j, lookupIdx s2.pp j = lookupIdx s.pp j) := by
    intro s2 h2ap h2pp
    constructor
    · intro j
      rw [h2ap]
      by_cases hj : j = i
      · subst hj
        rw [lookupIdx_append_of_none j row (by rw [lookupIdx_dropIdx]; simp)]
        rw [if_pos rfl, hap]
      · have hdr : lookupIdx (dropIdx s.ap i) j = lookupIdx s.ap j := by
          rw [lookupIdx_dropIdx, if_neg hj]
        cases hv : lookupIdx s.ap j with
        | none =>
            rw [lookupIdx_append_of_none i row (by rw [hdr]; exact hv)]
            rw [if_neg hj]
        | some x =>
            rw [lookupIdx_append_of_some i row (by rw [hdr]; exact hv)]
    · intro j
      rw [h2pp]
  cases hmode : s.draft_mode with
  | false =>
      refine ⟨{ s with ap := dropIdx s.ap i, pp := s.pp ++ [(i, nr)] },
        { s with ap := dropIdx s.ap i ++ [(i, row)], pp := s.pp }, ?_, ?_, ?_, ?_, rfl, ?_, ?_⟩
      · unfold do_pick_index
        rw [hpop]
        dsimp only
        rw [hmode]
        simp
      · simpa [hmode] using hunpick s.draft_mode s.i_manager_turn
          s.manager_picks s.manager_auto_strats
      · exact (htables { s with ap := dropIdx s.ap i ++ [(i, row)], pp := s.pp } rfl rfl).1
      · exact (htables { s with ap := dropIdx s.ap i ++ [(i, row)], pp := s.pp } rfl rfl).2
      · exact hmode
      · intro hcon
        exact (Bool.false_ne_true hcon).elim
  | true =>
      obtain ⟨hlen, hauto⟩ := hdm hmode
      have hadv : advance_snake { s with ap := dropIdx s.ap i, pp := s.pp ++ [(i, nr)] }
          = some { s with ap := dropIdx s.ap i, pp := s.pp ++ [(i, nr)], i_manager_turn := s.i_manager_turn + 1 } :=
        advance_snake_ok _ (by simpa using hlen) (by simpa using hauto)
      refine ⟨{ s with ap := dropIdx s.ap i, pp := s.pp ++ [(i, nr)], i_manager_turn := s.i_manager_turn + 1 },
        { s with ap := dropIdx s.ap i ++ [(i, row)], pp := s.pp, i_manager_turn := s.i_manager_turn + 1 - 1 }, ?_, ?_, ?_, ?_, ?_, ?_, ?_⟩
      · unfold do_pick_index
        rw [hpop]
        dsimp only
        rw [hmode]
        rw [if_pos rfl]
        rw [hmode] at hadv
        exact hadv
      · simpa [hmode] using hunpick s.draft_mode (s.i_manager_turn + 1)
          s.manager_picks s.manager_auto_strats
      · exact (htables { s with ap := dropIdx s.ap i ++ [(i, row)], pp := s.pp, i_manager_turn := s.i_manager_turn + 1 - 1 } rfl rfl).1
      · exact (htables { s with ap := dropIdx s.ap i ++ [(i, row)], pp := s.pp, i_manager_turn := s.i_manager_turn + 1 - 1 } rfl rfl).2
      · simp
      · exact hmode
      · intro hc; rfl

/-- A concrete available-table row for the C6 witness. -/
def c6Row : Row :=
  { player := "alpha", team := "AAA", pos := .QB, exp_proj := 10, vols := 4,
    vbsd := 3, volb := 2, vorp := 4, adp := 1, ecp := 1, auction := 20,
    g := 15, tier := some "QB1" }

/-- A concrete two-manager draft-mode state for the C6 witness. -/
def c6State : DraftState :=
  { ap := [(0, c6Row)], pp := [], draft_mode := true,
    manager_picks := [1, 2], i_manager_turn := 0, manager_auto_strats := [] }

/-- C6 witness: the round-trip theorem applied to the concrete state. -/
theorem c6_pick_unpick_roundtrip_witness :
    ∃ s1 s2, do_pick_index 0 c6State = some s1 ∧ do_unpick s1 = some s2
      ∧ (∀ j, lookupIdx s2.ap j = lookupIdx c6State.ap j)
      ∧ (∀ j, lookupIdx s2.pp j = lookupIdx c6State.pp j)
      ∧ s2.i_manager_turn = c6State.i_manager_turn
      ∧ s2.draft_mode = c6State.draft_mode
      ∧ (c6State.draft_mode = true →
          s1.i_manager_turn = c6State.i_manager_turn + 1) :=
  c6_pick_unpick_roundtrip c6State 0 c6Row rfl rfl
    (fun _ => ⟨by decide, fun m _ => by simp [c6State]⟩)

/-- `n_roster_per_team` (draft_app.py lines 1360-1369): the number of
roster spots per slot label, FLEX and BENCH included. -/
structure RosterCfg where
  qb : ℕ
  rb : ℕ
  wr : ℕ
  te : ℕ
  flex : ℕ
  dst : ℕ
  k : ℕ
  bench : ℕ
  deriving DecidableEq, Repr

/-- `self.n_roster_per_team[pos]` at a player position. -/
def nRosterAt (cfg : RosterCfg) : Pos → ℕ
  | .QB => cfg.qb
  | .RB => cfg.rb
  | .WR => cfg.wr
  | .TE => cfg.te
  | .K => cfg.k
  | .DST => cfg.dst

/-- `starting_roster_spots` (draft_app.py lines 476-478).  The guard
`pos.upper() is not 'BENCH'` compares object identity with a string the
interpreter has just created, so it is true for every key and the sum
runs over all slots, BENCH included. -/
def starting_roster_spots (cfg : RosterCfg) : ℕ :=
  cfg.qb + cfg.rb + cfg.wr + cfg.te + cfg.flex + cfg.dst + cfg.k + cfg.bench

/-- `_get_manager_roster` (draft_app.py lines 427-437) with the
`manager` column present: the rows of `pp` whose manager cell equals
`manager` (a NaN cell, `none`, matches no manager). -/
def get_manager_roster (manager : ℤ) (pp : List (ℕ × PickedRow)) :
    List (ℕ × Row) :=
  (pp.filter (fun p => decide (p.2.manager = some manager))).map
    (fun p => (p.1, p.2.row))

/-- `len(roster[roster.pos == pos])`. -/
def countPos (roster : List (ℕ × Row)) (p : Pos) : ℕ :=
  (roster.filter (fun r => decide (r.2.pos = p))).length

/-- `crap_positions` (draft_app.py line 479). -/
def crap_positions : List Pos := [.K, .DST]

/-- `key_positions` (draft_app.py line 487). -/
def key_positions : List Pos := [.QB, .RB, .WR, .TE]

/-- The `acceptable_positions` list computed by `_pick_rec`
(draft_app.py lines 481-525): needed key starters first (non-flex
positions below their quota, then flex positions below quota plus the
FLEX allowance when no flex spot is used); else the needed K/DST
starters when the roster plus those would fill all slots; else backups
(key positions below quota plus half the bench) followed by the needed
K/DST. -/
def acceptablePositions (cfg : RosterCfg) (roster : List (ℕ × Row)) :
    List Pos :=
  let needed_crap := crap_positions.filter
    (fun p => decide (countPos roster p < nRosterAt cfg p))
  let key_nonflex := key_positions.filter (fun p => decide (p ∉ flex_pos))
  let used_flex := flex_pos.any
    (fun p => decide (nRosterAt cfg p < countPos roster p))
  let flex_mult : ℕ := if used_flex then 0 else 1
  let needed_key :=
    key_nonflex.filter (fun p => decide (countPos roster p < nRosterAt cfg p))
      ++ flex_pos.filter (fun p =>
          decide (countPos roster p < nRosterAt cfg p + flex_mult * cfg.flex))
  if ¬ needed_key.isEmpty then needed_key
  else if starting_roster_spots cfg ≤ roster.length + needed_crap.length then
    needed_crap
  else
    key_positions.filter (fun p =>
        decide (countPos roster p < nRosterAt cfg p + cfg.bench / 2))
      ++ crap_positions.filter
        (fun p => decide (countPos roster p < nRosterAt cfg p))

/-- Lines 561-565 of `_pick_rec`: drop the disabled positions from
`acceptable_positions` and fall back to `key_positions` when nothing
remains. -/
def pickPositions (cfg : RosterCfg) (roster : List (ℕ × Row))
    (disabled_pos : List Pos) : List Pos :=
  let acceptable := (acceptablePositions cfg roster).filter
    (fun p => decide (p ∉ disabled_pos))
  if acceptable.isEmpty then key_positions else acceptable

/-- `_pick_rec` (draft_app.py lines 456-570) under `strat='vols'` (the
`vona` and `vorp` branches are skipped): restrict the available table
to the remaining acceptable positions, sort by `vols` descending and
return the first index; `none` models the IndexError on an empty
selection. -/
def pick_rec (cfg : RosterCfg) (manager : ℤ) (ap : List (ℕ × Row))
    (pp : List (ℕ × PickedRow)) (disabled_pos : List Pos) : Option ℕ :=
  ((ap.filter (fun r => decide (r.2.pos ∈
      pickPositions cfg (get_manager_roster manager pp) disabled_pos))).mergeSort
    (fun a b => decide (b.2.vols ≤ a.2.vols))).head?.map Prod.fst

/-- Any member of the selected position list avoids the disabled set,
or the list is the K/DST-free `key_positions` fallback. -/
theorem mem_pickPositions_not_disabled (cfg : RosterCfg)
    (roster : List (ℕ × Row)) (disabled_pos : List Pos) (p : Pos)
    (hp : p ∈ pickPositions cfg roster disabled_pos) :
    p ∉ disabled_pos ∨ p ∈ key_positions := by
  unfold pickPositions at hp
  dsimp only at hp
  by_cases he : ((acceptablePositions cfg roster).filter
      (fun q => decide (q ∉ disabled_pos))).isEmpty
  · rw [if_pos he] at hp
    exact Or.inr hp
  · rw [if_neg he] at hp
    exact Or.inl (of_decide_eq_true (List.mem_filter.1 hp).2)

/-- C7: with K and DST disabled, a `vols` recommendation is always a
player whose position is neither K nor DST, for every roster state. -/
theorem c7_pick_rec_disabled (cfg : RosterCfg) (manager : ℤ)
    (ap : List (ℕ × Row)) (pp : List (ℕ × PickedRow)) (i : ℕ)
    (h : pick_rec cfg manager ap pp [Pos.K, Pos.DST] = some i) :
    ∃ r, (i, r) ∈ ap ∧ r.pos ≠ Pos.K ∧ r.pos ≠ Pos.DST := by
  unfold pick_rec at h
  cases htl : (List.mergeSort (ap.filter (fun r => decide (r.2.pos ∈
      pickPositions cfg (get_manager_roster manager pp) [Pos.K, Pos.DST])))
      (fun a b => decide (b.2.vols ≤ a.2.vols))).head? with
  | none => rw [htl] at h; simp at h
  | some x =>
    rw [htl] at h
    have hxi : x.1 = i := by simpa using h
    have hx : x ∈ List.mergeSort (ap.filter (fun r => decide (r.2.pos ∈
        pickPositions cfg (get_manager_roster manager pp) [Pos.K, Pos.DST])))
        (fun a b => decide (b.2.vols ≤ a.2.vols)) :=
      List.mem_of_mem_head? htl
    have hx2 := (List.mem_mergeSort).1 hx
    have hxap : x ∈ ap := (List.mem_filter.1 hx2).1
    have hxfin : x.2.pos ∈
        pickPositions cfg (get_manager_roster manager pp) [Pos.K, Pos.DST] :=
      of_decide_eq_true (List.mem_filter.1 hx2).2
    have hnot : x.2.pos ≠ Pos.K ∧ x.2.pos ≠ Pos.DST := by
      rcases mem_pickPositions_not_disabled cfg
          (get_manager_roster manager pp) [Pos.K, Pos.DST] x.2.pos hxfin with
        hd | hk
      · constructor
        · intro hc; exact hd (by rw [hc]; exact List.mem_cons_self _ _)
        · intro hc; exact hd (by rw [hc]; exact List.mem_cons_of_mem _ (List.mem_cons_self _ _))
      · constructor
        · intro hc; rw [hc] at hk; exact absurd hk (by decide)
        · intro hc; rw [hc] at hk; exact absurd hk (by decide)
    refine ⟨x.2, ?_, hnot.1, hnot.2⟩
    rw [← hxi]
    simpa using hxap

/-- Standard roster configuration (draft_app.py lines 1348-1369
defaults). -/
def c7Cfg : RosterCfg :=
  { qb := 1, rb := 2, wr := 2, te := 1, flex := 1, dst := 1, k := 1,
    bench := 7 }

/-- A one-row available table for the C7 witness. -/
def c7Row : Row :=
  { player := "beta", team := "BBB", pos := .QB, exp_proj := 12, vols := 5,
    vbsd := 4, volb := 3, vorp := 5, adp := 2, ecp := 2, auction := 25,
    g := 16, tier := some "QB1" }

/-- C7 witness: on a standard roster with an empty picked table and a
single available QB, the recommendation is index 0 and that player is
neither a K nor a DST. -/
theorem c7_pick_rec_disabled_witness :
    ∃ r, (0, r) ∈ [(0, c7Row)] ∧ r.pos ≠ Pos.K ∧ r.pos ≠ Pos.DST :=
  c7_pick_rec_disabled c7Cfg 1 [(0, c7Row)] [] 0 (by
    have hsel : [(0, c7Row)].filter (fun r => decide (r.2.pos ∈
        pickPositions c7Cfg (get_manager_roster 1 []) [Pos.K, Pos.DST]))
        = [(0, c7Row)] := by
      rw [List.filter_cons]
      rw [if_pos (by decide)]
      rfl
    unfold pick_rec
    rw [hsel, List.mergeSort_singleton]
    rfl)

end Spec2Proof
